import Mathlib

/-!
Verification of the TopGunBuild/jsonwebtoken token pipeline.

This file shallowly embeds the library's `sign`, `decode` and `verify`
functions together with the helpers they use (the base64url codec from
`src/utils/base64-url-parse.ts`, the UTF-8 conversion from
`src/utils/utf8-to-uint8array.ts`, the `jwsDecode` helper, the payload
repadding decoder from `src/utils/decode-payload.ts`, and the claim
assembly inside `src/sign.ts`).

Modelling conventions:
* JavaScript objects are association lists `List (String × Json)`; property
  read is last-match (`JSON.parse` duplicate keys let the later value win),
  property write replaces the first occurrence in place, as JS assignment
  does on the unique-keyed objects the library builds.
* JSON numbers are modelled as integers: every number the library itself
  produces (`iat`, `nbf`, `exp`, timestamps) is an integer, and IEEE-754
  floating point is outside the scope of the embedding.
* Strings are Unicode scalar sequences (Lean `Char`); the UTF-16 lone
  surrogates JavaScript strings additionally admit are not representable.
* The cryptographic provider (`crypto.subtle`) and the external `ms`
  timespan parser are oracles passed in as function arguments, as the
  specification declares them out of scope.
-/

namespace JwtModel

/-- JSON values as the library manipulates them.  Numbers are modelled as
integers (see the header comment). -/
inductive Json where
  | null : Json
  | bool : Bool → Json
  | num : Int → Json
  | str : String → Json
  | arr : List Json → Json
  | obj : List (String × Json) → Json

/-- JavaScript truthiness of a JSON value: `null`, `false`, `0` and the
empty string are falsy, everything else (including `[]` and `{}`) truthy. -/
def jsTruthy : Json → Bool
  | .null => false
  | .bool b => b
  | .num n => n != 0
  | .str s => s ≠ ""
  | .arr _ => true
  | .obj _ => true

/-- Property read on an object: the value at the LAST occurrence of the key,
matching the value a JS object parsed from JSON reports when the source text
repeats a key. -/
def jsGet : List (String × Json) → String → Option Json
  | [], _ => none
  | (k', v) :: rest, k =>
    match jsGet rest k with
    | some w => some w
    | none => if k = k' then some v else none

/-- Property write: replace the value at the first occurrence of the key in
place, or append a fresh entry, as JS assignment does. -/
def setKey : List (String × Json) → String → Json → List (String × Json)
  | [], k, v => [(k, v)]
  | (k', v') :: rest, k, v =>
    if k = k' then (k', v) :: rest else (k', v') :: setKey rest k v

/-- `delete payload[k]`: drop every entry with the key. -/
def deleteKey : List (String × Json) → String → List (String × Json)
  | [], _ => []
  | (k', v) :: rest, k =>
    if k' = k then deleteKey rest k else (k', v) :: deleteKey rest k

/-- Top-level JavaScript values, used where the code branches on `typeof`
(the `verify` guards, the secret argument). -/
inductive JsValue where
  | undef : JsValue
  | jsNull : JsValue
  | bool : Bool → JsValue
  | num : Int → JsValue
  | str : String → JsValue
  | obj : List (String × Json) → JsValue

/-- The JavaScript `typeof` operator; note `typeof null` is `"object"`. -/
def typeofJs : JsValue → String
  | .undef => "undefined"
  | .jsNull => "object"
  | .bool _ => "boolean"
  | .num _ => "number"
  | .str _ => "string"
  | .obj _ => "object"

/-- Truthiness of a top-level value (`!secretOrPrivateKey` in `sign`). -/
def jsValueTruthy : JsValue → Bool
  | .undef => false
  | .jsNull => false
  | .bool b => b
  | .num n => n != 0
  | .str s => s ≠ ""
  | .obj _ => true

theorem jsGet_eq_none_of_not_mem {l : List (String × Json)} {k : String}
    (h : k ∉ l.map Prod.fst) : jsGet l k = none := by
  induction l with
  | nil => rfl
  | cons p rest ih =>
    obtain ⟨k', v'⟩ := p
    simp only [List.map_cons, List.mem_cons, not_or] at h
    simp [jsGet, ih h.2, h.1]

theorem setKey_map_fst (l : List (String × Json)) (k : String) (v : Json) :
    (setKey l k v).map Prod.fst =
      if k ∈ l.map Prod.fst then l.map Prod.fst else l.map Prod.fst ++ [k] := by
  induction l with
  | nil => simp [setKey]
  | cons p rest ih =>
    obtain ⟨k', v'⟩ := p
    by_cases h : k = k'
    · simp [setKey, h]
    · simp only [setKey, if_neg h, List.map_cons, ih, List.mem_cons]
      by_cases hm : k ∈ rest.map Prod.fst <;> simp [hm, h]

theorem setKey_keys_nodup {l : List (String × Json)} {k : String} {v : Json}
    (hnd : (l.map Prod.fst).Nodup) : ((setKey l k v).map Prod.fst).Nodup := by
  rw [setKey_map_fst]
  by_cases hm : k ∈ l.map Prod.fst
  · simpa [hm] using hnd
  · refine (if_neg hm) ▸ List.Nodup.append hnd (List.nodup_singleton k) ?_
    intro a ha hb
    rw [List.mem_singleton] at hb
    subst hb
    exact hm ha

theorem jsGet_setKey_self {l : List (String × Json)} (k : String) (v : Json)
    (hnd : (l.map Prod.fst).Nodup) : jsGet (setKey l k v) k = some v := by
  induction l with
  | nil => simp [setKey, jsGet]
  | cons p rest ih =>
    obtain ⟨k', v'⟩ := p
    simp only [List.map_cons, List.nodup_cons] at hnd
    by_cases h : k = k'
    · subst h
      have hnone : jsGet rest k = none := jsGet_eq_none_of_not_mem hnd.1
      simp [setKey, jsGet, hnone]
    · simp [setKey, h, jsGet, ih hnd.2]

theorem jsGet_setKey_ne (l : List (String × Json)) {k k₂ : String} (v : Json)
    (hne : k₂ ≠ k) : jsGet (setKey l k v) k₂ = jsGet l k₂ := by
  induction l with
  | nil => simp [setKey, jsGet, hne]
  | cons p rest ih =>
    obtain ⟨k', v'⟩ := p
    by_cases h : k = k'
    · subst h
      simp [setKey, jsGet, fun he : k₂ = k => hne he]
    · simp [setKey, h, jsGet, ih]

theorem jsGet_deleteKey_self (l : List (String × Json)) (k : String) :
    jsGet (deleteKey l k) k = none := by
  induction l with
  | nil => rfl
  | cons p rest ih =>
    obtain ⟨k', v'⟩ := p
    by_cases h : k' = k
    · simpa [deleteKey, h] using ih
    · have hne : ¬ k = k' := fun he => h he.symm
      simp [deleteKey, h, jsGet, ih, hne]

theorem jsGet_deleteKey_ne (l : List (String × Json)) {k k₂ : String}
    (hne : k₂ ≠ k) : jsGet (deleteKey l k) k₂ = jsGet l k₂ := by
  induction l with
  | nil => rfl
  | cons p rest ih =>
    obtain ⟨k', v'⟩ := p
    by_cases h : k' = k
    · subst h
      rw [deleteKey, if_pos rfl, ih]
      cases hgr : jsGet rest k₂ <;> simp [jsGet, hgr, hne]
    · simp [deleteKey, h, jsGet, ih]

theorem deleteKey_map_fst_subset (l : List (String × Json)) (k : String) :
    ∀ a ∈ (deleteKey l k).map Prod.fst, a ∈ l.map Prod.fst := by
  induction l with
  | nil => simp [deleteKey]
  | cons p rest ih =>
    obtain ⟨k', v'⟩ := p
    by_cases h : k' = k <;> simp only [deleteKey, h, if_pos, if_neg, List.map_cons] <;>
      intro a ha
    · exact List.mem_cons_of_mem _ (ih a ha)
    · rcases List.mem_cons.mp ha with h1 | h1
      · exact List.mem_cons.mpr (Or.inl h1)
      · exact List.mem_cons_of_mem _ (ih a h1)

theorem deleteKey_keys_nodup {l : List (String × Json)} {k : String}
    (hnd : (l.map Prod.fst).Nodup) : ((deleteKey l k).map Prod.fst).Nodup := by
  induction l with
  | nil => simp [deleteKey]
  | cons p rest ih =>
    obtain ⟨k', v'⟩ := p
    simp only [List.map_cons, List.nodup_cons] at hnd
    by_cases h : k' = k
    · simpa [deleteKey, h] using ih hnd.2
    · simp only [deleteKey, if_neg h, List.map_cons, List.nodup_cons]
      exact ⟨fun hm => hnd.1 (deleteKey_map_fst_subset rest k k' hm), ih hnd.2⟩

/-! ## Base64 and base64url (src/utils/base64-url-parse.ts)

`base64UrlStringify` is `btoa` followed by stripping `=` and substituting
`+ → -`, `/ → _`; `base64UrlParse` substitutes back, removes JS whitespace
and applies `atob`.  `btoa`/`atob` are the platform primitives, modelled
from the WHATWG forgiving-base64 specification they implement (unpadded
input accepted, length ≡ 1 mod 4 rejected, leftover bits ignored). -/

/-- The standard base64 alphabet, as a list of 64 characters. -/
def b64Alphabet : List Char :=
  "ABCDEFGHIJKLMNOPQRSTUVWXYZabcdefghijklmnopqrstuvwxyz0123456789+/".data

/-- Character of a sextet value (standard alphabet). -/
def b64CharOfSextet (n : Nat) : Char := b64Alphabet.getD n 'A'

/-- Sextet value of a base64 character, `none` for characters outside the
standard alphabet (including `=`). -/
def sextetOfB64Char (c : Char) : Option Nat :=
  b64Alphabet.findIdx? (fun d => d = c)

/-- The `+ → -`, `/ → _` substitution of `base64UrlStringify`. -/
def urlSub (c : Char) : Char :=
  if c = '+' then '-' else if c = '/' then '_' else c

/-- The `- → +`, `_ → /` substitution of `base64UrlParse`. -/
def stdOfUrl (c : Char) : Char :=
  if c = '-' then '+' else if c = '_' then '/' else c

/-- Bytes to sextet values, 3 bytes to 4 sextets with the tail short groups
of standard base64. -/
def encSextets : List Nat → List Nat
  | [] => []
  | [a] => [a / 4, a % 4 * 16]
  | [a, b] => [a / 4, a % 4 * 16 + b / 16, b % 16 * 4]
  | a :: b :: c :: rest =>
    a / 4 :: (a % 4 * 16 + b / 16) :: (b % 16 * 4 + c / 64) :: c % 64 :: encSextets rest

/-- Sextet values back to bytes; a trailing group of 2 or 3 sextets yields
1 or 2 bytes with the leftover bits discarded (forgiving-base64), and a
lone trailing sextet yields nothing (the Node `Buffer` behaviour). -/
def sextetsToBytes : List Nat → List Nat
  | a :: b :: c :: d :: rest =>
    (a * 4 + b / 16) :: (b % 16 * 16 + c / 4) :: (c % 4 * 64 + d) :: sextetsToBytes rest
  | [a, b] => [a * 4 + b / 16]
  | [a, b, c] => [a * 4 + b / 16, b % 16 * 16 + c / 4]
  | _ => []

/-- `=` padding appended by `btoa` (two for a 1-byte tail, one for 2). -/
def padChars (n : Nat) : List Char :=
  if n % 3 = 1 then ['=', '='] else if n % 3 = 2 then ['='] else []

/-- The `btoa` platform primitive on a byte list: standard padded base64. -/
def btoa (bs : List Nat) : String :=
  String.mk ((encSextets bs).map b64CharOfSextet ++ padChars bs.length)

/-- `base64UrlStringify(a)`: `btoa` output with `=` stripped, `+ → -`,
`/ → _` (src/utils/base64-url-parse.ts line 12). -/
def base64UrlStringify (bs : List Nat) : String :=
  String.mk (((btoa bs).data.filter (fun c => c ≠ '=')).map urlSub)

/-- ASCII whitespace, which forgiving-base64 (`atob`) strips. -/
def isAsciiWs (c : Char) : Bool :=
  c = ' ' ∨ c = '\t' ∨ c = '\n' ∨ c.toNat = 0x0C ∨ c.toNat = 0x0D

/-- The JS regex `\s` class (as used in `.replace(/\s/g, '')`). -/
def isJsWs (c : Char) : Bool :=
  isAsciiWs c ∨ c.toNat = 0x0B ∨ c.toNat = 0xA0 ∨ c.toNat = 0x1680 ∨
  (0x2000 ≤ c.toNat ∧ c.toNat ≤ 0x200A) ∨ c.toNat = 0x2028 ∨ c.toNat = 0x2029 ∨
  c.toNat = 0x202F ∨ c.toNat = 0x205F ∨ c.toNat = 0x3000 ∨ c.toNat = 0xFEFF

/-- Strip up to two trailing `=` characters (forgiving-base64 step for
input of length divisible by four). -/
def dropPad (l : List Char) : List Char :=
  match l.reverse with
  | '=' :: '=' :: r => r.reverse
  | '=' :: r => r.reverse
  | _ => l

/-- The `atob` platform primitive: WHATWG forgiving-base64 decode. -/
def atobModel (s : String) : Option (List Nat) :=
  let t1 := s.data.filter (fun c => ¬ isAsciiWs c)
  let t2 := if t1.length % 4 = 0 then dropPad t1 else t1
  if t2.length % 4 = 1 then none
  else (t2.mapM sextetOfB64Char).map sextetsToBytes

/-- `base64UrlParse(s)`: substitute `- → +`, `_ → /`, drop `\s`, `atob`,
then take character codes (src/utils/base64-url-parse.ts line 1). -/
def base64UrlParse (s : String) : Option (List Nat) :=
  atobModel (String.mk ((s.data.map stdOfUrl).filter (fun c => ¬ isJsWs c)))

/-- `Buffer.from(s, 'base64')` as `jwsDecode` uses it on JWS segments:
Node accepts both alphabets, skips characters outside them, and drops a
lone trailing sextet.  Total, never fails. -/
def nodeB64Decode (s : String) : List Nat :=
  sextetsToBytes ((s.data.map stdOfUrl).filterMap sextetOfB64Char)

theorem sextet_char_round (n : Nat) (h : n < 64) :
    sextetOfB64Char (b64CharOfSextet n) = some n := by
  revert n h
  decide

theorem sextet_char_ne_pad (n : Nat) (h : n < 64) : b64CharOfSextet n ≠ '=' := by
  revert n h
  decide

theorem sextet_char_url_inv (n : Nat) (h : n < 64) :
    stdOfUrl (urlSub (b64CharOfSextet n)) = b64CharOfSextet n := by
  revert n h
  decide

theorem sextet_char_url_not_ws (n : Nat) (h : n < 64) :
    ¬ isJsWs (urlSub (b64CharOfSextet n)) := by
  revert n h
  decide

theorem sextet_char_not_ws (n : Nat) (h : n < 64) :
    ¬ isAsciiWs (b64CharOfSextet n) := by
  revert n h
  decide

theorem sextet_char_std_not_jsws (n : Nat) (h : n < 64) :
    ¬ isJsWs (b64CharOfSextet n) := by
  revert n h
  decide

theorem encSextets_lt {bs : List Nat} (h : ∀ b ∈ bs, b < 256) :
    ∀ x ∈ encSextets bs, x < 64 := by
  match bs with
  | [] => simp [encSextets]
  | [a] =>
    have ha := h a (by simp)
    simp only [encSextets, List.mem_cons, List.not_mem_nil, or_false]
    rintro x (rfl | rfl) <;> omega
  | [a, b] =>
    have ha := h a (by simp)
    have hb := h b (by simp)
    simp only [encSextets, List.mem_cons, List.not_mem_nil, or_false]
    rintro x (rfl | rfl | rfl) <;> omega
  | a :: b :: c :: rest =>
    have ha := h a (by simp)
    have hb := h b (by simp)
    have hc := h c (by simp)
    have ih := @encSextets_lt rest (fun y hy => h y (by simp [hy]))
    simp only [encSextets, List.mem_cons]
    rintro x (rfl | rfl | rfl | rfl | hx)
    · omega
    · omega
    · omega
    · omega
    · exact ih x hx

theorem sextetsToBytes_encSextets {bs : List Nat} (h : ∀ b ∈ bs, b < 256) :
    sextetsToBytes (encSextets bs) = bs := by
  match bs with
  | [] => rfl
  | [a] =>
    have ha := h a (by simp)
    simp only [encSextets, sextetsToBytes]
    congr 1
    omega
  | [a, b] =>
    have ha := h a (by simp)
    have hb := h b (by simp)
    simp only [encSextets, sextetsToBytes]
    congr 1
    · omega
    · congr 1
      omega
  | a :: b :: c :: rest =>
    have ha := h a (by simp)
    have hb := h b (by simp)
    have hc := h c (by simp)
    have ih := @sextetsToBytes_encSextets rest (fun y hy => h y (by simp [hy]))
    rcases rest with _ | ⟨d, rest'⟩
    · simp only [encSextets, sextetsToBytes]
      congr 1
      · omega
      · congr 1
        · omega
        · congr 1
          omega
    · simp only [encSextets] at ih ⊢
      rcases henc : encSextets (d :: rest') with _ | ⟨s1, stl⟩ <;>
        rw [henc] at ih <;> simp only [sextetsToBytes] at ih ⊢
      · simp at ih
      · rw [ih]
        congr 1
        · omega
        · congr 1
          · omega
          · congr 1
            omega

theorem encSextets_length_mod (bs : List Nat) :
    (encSextets bs).length % 4 = 0 ∨ (encSextets bs).length % 4 = 2 ∨
    (encSextets bs).length % 4 = 3 := by
  match bs with
  | [] => simp [encSextets]
  | [a] => simp [encSextets]
  | [a, b] => simp [encSextets]
  | a :: b :: c :: rest =>
    have ih := encSextets_length_mod rest
    simp only [encSextets, List.length_cons]
    omega

theorem dropPad_no_pad {l : List Char} (h : '=' ∉ l) : dropPad l = l := by
  unfold dropPad
  split
  · rename_i r hr
    have hm : '=' ∈ l.reverse := by
      rw [hr]
      simp
    exact absurd (List.mem_reverse.mp hm) h
  · rename_i r hr
    have hm : '=' ∈ l.reverse := by
      rw [hr]
      simp
    exact absurd (List.mem_reverse.mp hm) h
  · rfl

theorem base64UrlStringify_data (bs : List Nat) (h : ∀ b ∈ bs, b < 256) :
    (base64UrlStringify bs).data =
      (encSextets bs).map (fun n => urlSub (b64CharOfSextet n)) := by
  have hlt := encSextets_lt h
  show (((encSextets bs).map b64CharOfSextet ++ padChars bs.length).filter
      (fun c => c ≠ '=')).map urlSub = _
  rw [List.filter_append]
  have h1 : ((encSextets bs).map b64CharOfSextet).filter (fun c => c ≠ '=') =
      (encSextets bs).map b64CharOfSextet := by
    rw [List.filter_eq_self]
    intro c hc
    obtain ⟨n, hn, rfl⟩ := List.mem_map.mp hc
    simpa using sextet_char_ne_pad n (hlt n hn)
  have h2 : (padChars bs.length).filter (fun c => c ≠ '=') = [] := by
    unfold padChars
    split
    · rfl
    · split <;> rfl
  rw [h1, h2, List.append_nil, List.map_map]
  rfl

theorem mapM_sextet {sx : List Nat} (h : ∀ x ∈ sx, x < 64) :
    (sx.map b64CharOfSextet).mapM sextetOfB64Char = some sx := by
  induction sx with
  | nil => rfl
  | cons a tl ih =>
    rw [List.map_cons, List.mapM_cons, sextet_char_round a (h a (by simp)),
      ih (fun x hx => h x (by simp [hx]))]
    rfl

theorem filterMap_sextet {sx : List Nat} (h : ∀ x ∈ sx, x < 64) :
    (sx.map b64CharOfSextet).filterMap sextetOfB64Char = sx := by
  induction sx with
  | nil => rfl
  | cons a tl ih =>
    rw [List.map_cons, List.filterMap_cons, sextet_char_round a (h a (by simp)),
      ih (fun x hx => h x (by simp [hx]))]

/-- Round trip of the url-safe codec itself. -/
theorem base64UrlParse_stringify (bs : List Nat) (h : ∀ b ∈ bs, b < 256) :
    base64UrlParse (base64UrlStringify bs) = some bs := by
  have hlt := encSextets_lt h
  unfold base64UrlParse
  have hdata : ((base64UrlStringify bs).data.map stdOfUrl).filter (fun c => ¬ isJsWs c) =
      (encSextets bs).map b64CharOfSextet := by
    rw [base64UrlStringify_data bs h, List.map_map]
    have hmaps : (encSextets bs).map (stdOfUrl ∘ fun n => urlSub (b64CharOfSextet n)) =
        (encSextets bs).map b64CharOfSextet :=
      List.map_congr_left (fun n hn => sextet_char_url_inv n (hlt n hn))
    rw [hmaps, List.filter_eq_self.mpr]
    intro c hc
    obtain ⟨n, hn, rfl⟩ := List.mem_map.mp hc
    simpa using sextet_char_std_not_jsws n (hlt n hn)
  unfold atobModel
  simp only [hdata]
  have hws : ((encSextets bs).map b64CharOfSextet).filter (fun c => ¬ isAsciiWs c) =
      (encSextets bs).map b64CharOfSextet := by
    rw [List.filter_eq_self]
    intro c hc
    obtain ⟨n, hn, rfl⟩ := List.mem_map.mp hc
    simpa using sextet_char_not_ws n (hlt n hn)
  simp only [hws]
  have hnopad : '=' ∉ (encSextets bs).map b64CharOfSextet := by
    intro hm
    obtain ⟨n, hn, he⟩ := List.mem_map.mp hm
    exact sextet_char_ne_pad n (hlt n hn) he
  have hlen := encSextets_length_mod bs
  have ht2 : (if ((encSextets bs).map b64CharOfSextet).length % 4 = 0 then
      dropPad ((encSextets bs).map b64CharOfSextet) else
      (encSextets bs).map b64CharOfSextet) = (encSextets bs).map b64CharOfSextet := by
    split
    · exact dropPad_no_pad hnopad
    · rfl
  rw [ht2]
  rw [if_neg (by rw [List.length_map]; omega)]
  rw [mapM_sextet hlt]
  show some (sextetsToBytes (encSextets bs)) = some bs
  rw [sextetsToBytes_encSextets h]

/-- Round trip through the Node `Buffer` base64 decoder used by `jwsDecode`. -/
theorem nodeB64Decode_stringify (bs : List Nat) (h : ∀ b ∈ bs, b < 256) :
    nodeB64Decode (base64UrlStringify bs) = bs := by
  have hlt := encSextets_lt h
  unfold nodeB64Decode
  rw [base64UrlStringify_data bs h, List.map_map]
  have hmaps : (encSextets bs).map (stdOfUrl ∘ fun n => urlSub (b64CharOfSextet n)) =
      (encSextets bs).map b64CharOfSextet :=
    List.map_congr_left (fun n hn => sextet_char_url_inv n (hlt n hn))
  rw [hmaps, filterMap_sextet hlt, sextetsToBytes_encSextets h]

/-- Characters allowed by the `JWS_REGEX` segment class `[a-zA-Z0-9\-_]`. -/
def isB64UrlChar (c : Char) : Bool :=
  ('A' ≤ c ∧ c ≤ 'Z') ∨ ('a' ≤ c ∧ c ≤ 'z') ∨ ('0' ≤ c ∧ c ≤ '9') ∨ c = '-' ∨ c = '_'

theorem sextet_char_url_is_url (n : Nat) (h : n < 64) :
    isB64UrlChar (urlSub (b64CharOfSextet n)) := by
  revert n h
  decide

theorem base64UrlStringify_chars (bs : List Nat) (h : ∀ b ∈ bs, b < 256) :
    ∀ c ∈ (base64UrlStringify bs).data, isB64UrlChar c := by
  rw [base64UrlStringify_data bs h]
  intro c hc
  obtain ⟨n, hn, rfl⟩ := List.mem_map.mp hc
  exact sextet_char_url_is_url n (encSextets_lt h n hn)

theorem encSextets_ne_nil {bs : List Nat} (h : bs ≠ []) : encSextets bs ≠ [] := by
  match bs with
  | [] => exact absurd rfl h
  | [a] => simp [encSextets]
  | [a, b] => simp [encSextets]
  | a :: b :: c :: rest => simp [encSextets]

theorem base64UrlStringify_ne_nil (bs : List Nat) (h : ∀ b ∈ bs, b < 256)
    (hne : bs ≠ []) : (base64UrlStringify bs).data ≠ [] := by
  rw [base64UrlStringify_data bs h]
  simpa using encSextets_ne_nil hne

theorem isB64UrlChar_ne_dot {c : Char} (h : isB64UrlChar c) : c ≠ '.' := by
  intro he
  subst he
  simp [isB64UrlChar] at h

/-! ## UTF-8 (src/utils/utf8-to-uint8array.ts and Buffer.toString)

`utf8ToUint8Array(str)` is `base64UrlParse(btoa(unescape(encodeURIComponent(str))))`,
i.e. the UTF-8 bytes of the string; `Buffer.from(bytes).toString('utf8')` is
the lossy WHATWG decode (invalid sequences become U+FFFD), and
`.toString('binary')` reads each byte as a latin-1 character. -/

/-- UTF-8 bytes of one Unicode scalar value. -/
def utf8EncodeChar (c : Char) : List Nat :=
  if c.toNat < 0x80 then [c.toNat]
  else if c.toNat < 0x800 then [0xC0 + c.toNat / 64, 0x80 + c.toNat % 64]
  else if c.toNat < 0x10000 then
    [0xE0 + c.toNat / 4096, 0x80 + c.toNat / 64 % 64, 0x80 + c.toNat % 64]
  else
    [0xF0 + c.toNat / 262144, 0x80 + c.toNat / 4096 % 64,
     0x80 + c.toNat / 64 % 64, 0x80 + c.toNat % 64]

/-- `Char.ofNat` at a valid scalar value reads back as that value. -/
theorem toNat_ofNat_valid {n : Nat} (h : n.isValidChar) : (Char.ofNat n).toNat = n := by
  simp [Char.ofNat, h, Char.ofNatAux, Char.toNat, UInt32.toNat, BitVec.toNat_ofNatLt]

/-- UTF-8 bytes of a string (`utf8ToUint8Array`). -/
def utf8Encode (cs : List Char) : List Nat := cs.flatMap utf8EncodeChar

/-- The U+FFFD replacement character emitted for invalid sequences. -/
def replChar : Char := Char.ofNat 0xFFFD

/-- A UTF-8 continuation byte. -/
def isCont (b : Nat) : Bool := 0x80 ≤ b ∧ b ≤ 0xBF

/-- Second-byte constraint of a three-byte sequence (excludes overlong
encodings and surrogates). -/
def cont3 (b b1 : Nat) : Bool :=
  0x80 ≤ b1 ∧ b1 ≤ 0xBF ∧ ¬(b = 0xE0 ∧ b1 < 0xA0) ∧ ¬(b = 0xED ∧ 0x9F < b1)

/-- Second-byte constraint of a four-byte sequence (excludes overlong
encodings and values above U+10FFFF). -/
def cont4 (b b1 : Nat) : Bool :=
  0x80 ≤ b1 ∧ b1 ≤ 0xBF ∧ ¬(b = 0xF0 ∧ b1 < 0x90) ∧ ¬(b = 0xF4 ∧ 0x8F < b1)

/-- One step of the lossy UTF-8 decoder: given a lead byte and the
remaining input, produce the decoded character (U+FFFD on an invalid
sequence, which consumes only the lead byte) and the rest of the input. -/
def utf8Take (b : Nat) (rest : List Nat) : Char × List Nat :=
  if b < 0x80 then (Char.ofNat b, rest)
  else if 0xC2 ≤ b ∧ b ≤ 0xDF then
    match rest.head? with
    | some b1 =>
      if isCont b1 then (Char.ofNat ((b - 0xC0) * 64 + (b1 - 0x80)), rest.tail)
      else (replChar, rest)
    | none => (replChar, rest)
  else if 0xE0 ≤ b ∧ b ≤ 0xEF then
    match rest.head?, rest.tail.head? with
    | some b1, some b2 =>
      if cont3 b b1 ∧ isCont b2 then
        (Char.ofNat ((b - 0xE0) * 4096 + (b1 - 0x80) * 64 + (b2 - 0x80)),
          rest.tail.tail)
      else (replChar, rest)
    | _, _ => (replChar, rest)
  else if 0xF0 ≤ b ∧ b ≤ 0xF4 then
    match rest.head?, rest.tail.head?, rest.tail.tail.head? with
    | some b1, some b2, some b3 =>
      if cont4 b b1 ∧ isCont b2 ∧ isCont b3 then
        (Char.ofNat ((b - 0xF0) * 262144 + (b1 - 0x80) * 4096 +
          (b2 - 0x80) * 64 + (b3 - 0x80)), rest.tail.tail.tail)
      else (replChar, rest)
    | _, _, _ => (replChar, rest)
  else (replChar, rest)

theorem utf8Take_snd_length (b : Nat) (rest : List Nat) :
    (utf8Take b rest).2.length ≤ rest.length := by
  unfold utf8Take
  repeat' split
  all_goals simp [List.length_tail]
  all_goals omega

/-- Fuel-indexed worker for the lossy UTF-8 decode; `utf8Take` consumes at
least one byte per step, so the input length is enough fuel. -/
def utf8DecodeLossyF : Nat → List Nat → List Char
  | 0, _ => []
  | _ + 1, [] => []
  | fuel + 1, b :: rest =>
    (utf8Take b rest).1 :: utf8DecodeLossyF fuel (utf8Take b rest).2

/-- Lossy UTF-8 decode: a valid sequence yields its scalar, anything else
yields U+FFFD and skips one byte (`Buffer.toString('utf8')`). -/
def utf8DecodeLossy (l : List Nat) : List Char := utf8DecodeLossyF l.length l

theorem utf8DecodeLossyF_congr :
    ∀ (f g : Nat) (l : List Nat), l.length ≤ f → l.length ≤ g →
      utf8DecodeLossyF f l = utf8DecodeLossyF g l := by
  intro f
  induction f with
  | zero =>
    intro g l hf _
    rw [List.length_eq_zero.mp (Nat.le_zero.mp hf)]
    cases g <;> rfl
  | succ f ih =>
    intro g l hf hg
    cases l with
    | nil => cases g <;> rfl
    | cons b rest =>
      cases g with
      | zero => exact absurd hg (by simp)
      | succ g =>
        simp only [List.length_cons, Nat.succ_le_succ_iff] at hf hg
        have hlen := utf8Take_snd_length b rest
        rw [utf8DecodeLossyF, utf8DecodeLossyF,
          ih g _ (le_trans hlen hf) (le_trans hlen hg)]

theorem utf8DecodeLossy_nil : utf8DecodeLossy [] = [] := rfl

theorem utf8DecodeLossy_cons (b : Nat) (rest : List Nat) :
    utf8DecodeLossy (b :: rest) =
      (utf8Take b rest).1 :: utf8DecodeLossy (utf8Take b rest).2 := by
  show utf8DecodeLossyF (rest.length + 1) (b :: rest) = _
  rw [utf8DecodeLossyF]
  exact congrArg _ (utf8DecodeLossyF_congr _ _ _
    (utf8Take_snd_length b rest) (le_refl _))

theorem char_toNat_valid (c : Char) :
    c.toNat < 0xD800 ∨ (0xDFFF < c.toNat ∧ c.toNat < 0x110000) := c.valid

theorem utf8EncodeChar_lt_256 (c : Char) : ∀ x ∈ utf8EncodeChar c, x < 256 := by
  have hv := char_toNat_valid c
  unfold utf8EncodeChar
  split
  · intro x hx
    simp only [List.mem_singleton] at hx
    omega
  · split
    · intro x hx
      simp only [List.mem_cons, List.not_mem_nil, or_false] at hx
      rcases hx with rfl | rfl <;> omega
    · split
      · intro x hx
        simp only [List.mem_cons, List.not_mem_nil, or_false] at hx
        rcases hx with rfl | rfl | rfl <;> omega
      · intro x hx
        simp only [List.mem_cons, List.not_mem_nil, or_false] at hx
        rcases hx with rfl | rfl | rfl | rfl <;> omega

theorem utf8EncodeChar_ne_nil (c : Char) : utf8EncodeChar c ≠ [] := by
  unfold utf8EncodeChar
  split
  · simp
  · split
    · simp
    · split <;> simp

theorem utf8Take_encodeChar (c : Char) (rest : List Nat) (b : Nat) (tl : List Nat)
    (he : utf8EncodeChar c = b :: tl) : utf8Take b (tl ++ rest) = (c, rest) := by
  have hv := char_toNat_valid c
  by_cases h1 : c.toNat < 0x80
  · have : utf8EncodeChar c = [c.toNat] := by
      unfold utf8EncodeChar
      rw [if_pos h1]
    rw [this] at he
    obtain ⟨rfl, rfl⟩ : b = c.toNat ∧ tl = [] := by
      constructor <;> simp_all
    rw [List.nil_append]
    unfold utf8Take
    rw [if_pos h1, Char.ofNat_toNat]
  · by_cases h2 : c.toNat < 0x800
    · have : utf8EncodeChar c = [0xC0 + c.toNat / 64, 0x80 + c.toNat % 64] := by
        unfold utf8EncodeChar
        rw [if_neg h1, if_pos h2]
      rw [this] at he
      obtain ⟨rfl, rfl⟩ : b = 0xC0 + c.toNat / 64 ∧ tl = [0x80 + c.toNat % 64] := by
        constructor <;> simp_all
      rw [List.singleton_append]
      unfold utf8Take
      rw [if_neg (by omega), if_pos (by constructor <;> omega)]
      simp only [List.head?_cons, List.tail_cons]
      rw [if_pos (by simp only [isCont, decide_eq_true_eq]; constructor <;> omega)]
      rw [show (0xC0 + c.toNat / 64 - 0xC0) * 64 + (0x80 + c.toNat % 64 - 0x80)
          = c.toNat by omega]
      rw [Char.ofNat_toNat]
    · by_cases h3 : c.toNat < 0x10000
      · have : utf8EncodeChar c =
            [0xE0 + c.toNat / 4096, 0x80 + c.toNat / 64 % 64, 0x80 + c.toNat % 64] := by
          unfold utf8EncodeChar
          rw [if_neg h1, if_neg h2, if_pos h3]
        rw [this] at he
        obtain ⟨rfl, rfl⟩ : b = 0xE0 + c.toNat / 4096 ∧
            tl = [0x80 + c.toNat / 64 % 64, 0x80 + c.toNat % 64] := by
          constructor <;> simp_all
        rw [List.cons_append, List.singleton_append]
        unfold utf8Take
        rw [if_neg (by omega), if_neg (by omega), if_pos (by constructor <;> omega)]
        simp only [List.head?_cons, List.tail_cons]
        rw [if_pos ?hc3]
        case hc3 =>
          constructor
          · simp only [cont3, decide_eq_true_eq, not_and, not_lt]
            refine ⟨by omega, by omega, ?_, ?_⟩ <;> intro hx <;> omega
          · simp only [isCont, decide_eq_true_eq]
            constructor <;> omega
        rw [show (0xE0 + c.toNat / 4096 - 0xE0) * 4096 +
            (0x80 + c.toNat / 64 % 64 - 0x80) * 64 + (0x80 + c.toNat % 64 - 0x80)
            = c.toNat by omega]
        rw [Char.ofNat_toNat]
      · have : utf8EncodeChar c =
            [0xF0 + c.toNat / 262144, 0x80 + c.toNat / 4096 % 64,
             0x80 + c.toNat / 64 % 64, 0x80 + c.toNat % 64] := by
          unfold utf8EncodeChar
          rw [if_neg h1, if_neg h2, if_neg h3]
        rw [this] at he
        obtain ⟨rfl, rfl⟩ : b = 0xF0 + c.toNat / 262144 ∧
            tl = [0x80 + c.toNat / 4096 % 64, 0x80 + c.toNat / 64 % 64,
              0x80 + c.toNat % 64] := by
          constructor <;> simp_all
        rw [List.cons_append, List.cons_append, List.singleton_append]
        unfold utf8Take
        rw [if_neg (by omega), if_neg (by omega), if_neg (by omega),
          if_pos (by constructor <;> omega)]
        simp only [List.head?_cons, List.tail_cons]
        rw [if_pos ?hc4]
        case hc4 =>
          refine ⟨?_, ?_, ?_⟩
          · simp only [cont4, decide_eq_true_eq, not_and, not_lt]
            refine ⟨by omega, by omega, ?_, ?_⟩ <;> intro hx <;> omega
          · simp only [isCont, decide_eq_true_eq]
            constructor <;> omega
          · simp only [isCont, decide_eq_true_eq]
            constructor <;> omega
        rw [show (0xF0 + c.toNat / 262144 - 0xF0) * 262144 +
            (0x80 + c.toNat / 4096 % 64 - 0x80) * 4096 +
            (0x80 + c.toNat / 64 % 64 - 0x80) * 64 + (0x80 + c.toNat % 64 - 0x80)
            = c.toNat by omega]
        rw [Char.ofNat_toNat]

theorem utf8DecodeLossy_encodeChar (c : Char) (rest : List Nat) :
    utf8DecodeLossy (utf8EncodeChar c ++ rest) = c :: utf8DecodeLossy rest := by
  rcases he : utf8EncodeChar c with _ | ⟨b, tl⟩
  · exact absurd he (utf8EncodeChar_ne_nil c)
  · rw [List.cons_append, utf8DecodeLossy_cons, utf8Take_encodeChar c rest b tl he]

/-- Round trip: lossy UTF-8 decode of the UTF-8 encoding is the identity. -/
theorem utf8DecodeLossy_encode (cs : List Char) :
    utf8DecodeLossy (utf8Encode cs) = cs := by
  induction cs with
  | nil =>
    rw [show utf8Encode [] = [] from rfl, utf8DecodeLossy_nil]
  | cons c tl ih =>
    rw [utf8Encode, List.flatMap_cons, ← utf8Encode, utf8DecodeLossy_encodeChar, ih]

theorem utf8Encode_lt_256 (cs : List Char) : ∀ x ∈ utf8Encode cs, x < 256 := by
  intro x hx
  obtain ⟨c, _, hc⟩ := List.mem_flatMap.mp hx
  exact utf8EncodeChar_lt_256 c x hc

theorem utf8Encode_ne_nil {cs : List Char} (h : cs ≠ []) : utf8Encode cs ≠ [] := by
  match cs with
  | [] => exact absurd rfl h
  | c :: tl =>
    rw [utf8Encode, List.flatMap_cons]
    intro he
    exact utf8EncodeChar_ne_nil c (List.append_eq_nil.mp he).1

/-- One character as seen through `Buffer.toString('binary')`: its UTF-8
bytes read back as latin-1 characters. -/
def utf8AsLatin1 (c : Char) : List Char := (utf8EncodeChar c).map Char.ofNat

/-- Reading a byte list as latin-1 characters. -/
def latin1OfBytes (bs : List Nat) : List Char := bs.map Char.ofNat

theorem latin1OfBytes_utf8Encode (cs : List Char) :
    latin1OfBytes (utf8Encode cs) = cs.flatMap utf8AsLatin1 := by
  unfold latin1OfBytes utf8Encode utf8AsLatin1
  rw [List.map_flatMap]

theorem utf8AsLatin1_ascii {c : Char} (h : c.toNat < 0x80) : utf8AsLatin1 c = [c] := by
  unfold utf8AsLatin1
  rw [show utf8EncodeChar c = [c.toNat] by unfold utf8EncodeChar; rw [if_pos h]]
  rw [List.map_singleton, Char.ofNat_toNat]

theorem utf8AsLatin1_high {c : Char} (h : 0x80 ≤ c.toNat) :
    utf8AsLatin1 c ≠ [] ∧ ∀ d ∈ utf8AsLatin1 c, 0x80 ≤ d.toNat ∧ d.toNat < 256 := by
  constructor
  · unfold utf8AsLatin1
    simpa using utf8EncodeChar_ne_nil c
  · intro d hd
    obtain ⟨b, hb, rfl⟩ := List.mem_map.mp hd
    have hlt : b < 256 := utf8EncodeChar_lt_256 c b hb
    have hge : 0x80 ≤ b := by
      have hv := char_toNat_valid c
      revert hb
      unfold utf8EncodeChar
      rw [if_neg (by omega)]
      split
      · intro hb
        simp only [List.mem_cons, List.not_mem_nil, or_false] at hb
        rcases hb with rfl | rfl <;> omega
      · split
        · intro hb
          simp only [List.mem_cons, List.not_mem_nil, or_false] at hb
          rcases hb with rfl | rfl | rfl <;> omega
        · intro hb
          simp only [List.mem_cons, List.not_mem_nil, or_false] at hb
          rcases hb with rfl | rfl | rfl | rfl <;> omega
    have hval : b.isValidChar := by
      unfold Nat.isValidChar
      omega
    rw [toNat_ofNat_valid hval]
    omega

/-! ## JSON serialisation and parsing (JSON.stringify / JSON.parse)

`JSON.stringify` with no spacing argument and `JSON.parse` with no reviver,
restricted to integer numbers (see the header comment).  The parser is
fuel-indexed; `jsonParse` runs it with fuel exceeding the input length,
which the round-trip lemmas show is always sufficient. -/

/-- JSON insignificant whitespace. -/
def isJsonWs (c : Char) : Bool := c = ' ' ∨ c = '\t' ∨ c = '\n' ∨ c = '\r'

/-- Skip insignificant whitespace. -/
def skipWs (l : List Char) : List Char := l.dropWhile isJsonWs

/-- Lowercase hexadecimal digit, as `JSON.stringify` emits in `\u00xx`. -/
def hexDigit (n : Nat) : Char :=
  if n < 10 then Char.ofNat (48 + n) else Char.ofNat (87 + n)

/-- `JSON.stringify` escaping of one string character. -/
def escapeChar (c : Char) : List Char :=
  if c = '"' then ['\\', '"']
  else if c = '\\' then ['\\', '\\']
  else if c.toNat = 8 then ['\\', 'b']
  else if c.toNat = 9 then ['\\', 't']
  else if c.toNat = 10 then ['\\', 'n']
  else if c.toNat = 12 then ['\\', 'f']
  else if c.toNat = 13 then ['\\', 'r']
  else if c.toNat < 32 then
    ['\\', 'u', '0', '0', hexDigit (c.toNat / 16), hexDigit (c.toNat % 16)]
  else [c]

/-- A serialised JSON string literal, quotes included. -/
def strLit (s : String) : List Char := '"' :: s.data.flatMap escapeChar ++ ['"']

/-- Decimal digit character. -/
def digitChar (d : Nat) : Char := Char.ofNat (48 + d)

/-- Decimal representation of a natural number. -/
def natChars (n : Nat) : List Char :=
  if n = 0 then ['0'] else ((Nat.digits 10 n).map digitChar).reverse

/-- Decimal representation of an integer. -/
def intChars (n : Int) : List Char :=
  if n < 0 then '-' :: natChars n.natAbs else natChars n.toNat

mutual

/-- `JSON.stringify` (no spacing), as a character list. -/
def jsonStringify : Json → List Char
  | .null => "null".data
  | .bool true => "true".data
  | .bool false => "false".data
  | .num n => intChars n
  | .str s => strLit s
  | .arr xs => '[' :: stringifyElems xs
  | .obj kvs => '{' :: stringifyMembers kvs

/-- Array elements with separators and the closing bracket. -/
def stringifyElems : List Json → List Char
  | [] => [']']
  | x :: xs =>
    jsonStringify x ++
      (match xs with
       | [] => [']']
       | _ :: _ => ',' :: stringifyElems xs)

/-- Object members with separators and the closing brace. -/
def stringifyMembers : List (String × Json) → List Char
  | [] => ['}']
  | (k, v) :: kvs =>
    strLit k ++ ':' :: jsonStringify v ++
      (match kvs with
       | [] => ['}']
       | _ :: _ => ',' :: stringifyMembers kvs)

end

/-- Value of an ASCII hexadecimal digit. -/
def hexVal (c : Char) : Option Nat :=
  if '0' ≤ c ∧ c ≤ '9' then some (c.toNat - 48)
  else if 'a' ≤ c ∧ c ≤ 'f' then some (c.toNat - 87)
  else if 'A' ≤ c ∧ c ≤ 'F' then some (c.toNat - 55)
  else none

/-- Parse a JSON string body after the opening quote; yields the content
characters and the input following the closing quote.  Rejects raw control
characters and surrogate `\u` escapes (the latter are not representable as
scalar values; see the header comment). -/
def parseStrBody : List Char → Option (List Char × List Char)
  | [] => none
  | c :: r =>
    if c = '"' then some ([], r)
    else if c = '\\' then
      match r with
      | [] => none
      | e :: r2 =>
        if e = 'u' then
          match r2 with
          | h1 :: h2 :: h3 :: h4 :: r3 =>
            match hexVal h1, hexVal h2, hexVal h3, hexVal h4 with
            | some a, some b, some cv, some d =>
              if 0xD800 ≤ a * 4096 + b * 256 + cv * 16 + d ∧
                  a * 4096 + b * 256 + cv * 16 + d ≤ 0xDFFF then none
              else (parseStrBody r3).map
                (fun p => (Char.ofNat (a * 4096 + b * 256 + cv * 16 + d) :: p.1, p.2))
            | _, _, _, _ => none
          | _ => none
        else if e = '"' then (parseStrBody r2).map (fun p => ('"' :: p.1, p.2))
        else if e = '\\' then (parseStrBody r2).map (fun p => ('\\' :: p.1, p.2))
        else if e = '/' then (parseStrBody r2).map (fun p => ('/' :: p.1, p.2))
        else if e = 'b' then (parseStrBody r2).map (fun p => (Char.ofNat 8 :: p.1, p.2))
        else if e = 'f' then (parseStrBody r2).map (fun p => (Char.ofNat 12 :: p.1, p.2))
        else if e = 'n' then (parseStrBody r2).map (fun p => ('\n' :: p.1, p.2))
        else if e = 'r' then (parseStrBody r2).map (fun p => (Char.ofNat 13 :: p.1, p.2))
        else if e = 't' then (parseStrBody r2).map (fun p => ('\t' :: p.1, p.2))
        else none
    else if c.toNat < 32 then none
    else (parseStrBody r).map (fun p => (c :: p.1, p.2))

/-- ASCII decimal digit. -/
def isDigitChar (c : Char) : Bool := 48 ≤ c.toNat ∧ c.toNat ≤ 57

/-- Decimal digit run at the head of the input, as digit values. -/
def takeDigits : List Char → List Nat × List Char
  | [] => ([], [])
  | c :: r =>
    if isDigitChar c then
      ((c.toNat - 48) :: (takeDigits r).1, (takeDigits r).2)
    else ([], c :: r)

/-- Numeric value of a big-endian digit-value list. -/
def valOfDigits (ds : List Nat) : Nat := Nat.ofDigits 10 ds.reverse

/-- Parse an unsigned JSON integer (rejecting a leading zero before more
digits). -/
def parseNatNum (l : List Char) : Option (Nat × List Char) :=
  match takeDigits l with
  | ([], _) => none
  | (d :: ds, rest) =>
    if d = 0 ∧ ds ≠ [] then none else some (valOfDigits (d :: ds), rest)

/-- Parse a JSON integer with optional sign. -/
def parseIntNum (l : List Char) : Option (Int × List Char) :=
  if l.head? = some '-' then (parseNatNum l.tail).map (fun p => (-(p.1 : Int), p.2))
  else (parseNatNum l).map (fun p => ((p.1 : Int), p.2))

mutual

/-- Fuel-indexed JSON value parser (`JSON.parse` grammar with integer
numbers). -/
def parseValue : Nat → List Char → Option (Json × List Char)
  | 0, _ => none
  | fuel + 1, l =>
    match skipWs l with
    | [] => none
    | c :: r =>
      if c = '{' then
        (parseMembers fuel true r).map (fun p => (Json.obj p.1, p.2))
      else if c = '[' then
        (parseElems fuel true r).map (fun p => (Json.arr p.1, p.2))
      else if c = '"' then
        (parseStrBody r).map (fun p => (Json.str (String.mk p.1), p.2))
      else if c = 't' then
        match r with
        | 'r' :: 'u' :: 'e' :: r2 => some (Json.bool true, r2)
        | _ => none
      else if c = 'f' then
        match r with
        | 'a' :: 'l' :: 's' :: 'e' :: r2 => some (Json.bool false, r2)
        | _ => none
      else if c = 'n' then
        match r with
        | 'u' :: 'l' :: 'l' :: r2 => some (Json.null, r2)
        | _ => none
      else if c = '-' ∨ isDigitChar c then
        (parseIntNum (c :: r)).map (fun p => (Json.num p.1, p.2))
      else none

/-- Object members after the opening brace; `first` is true until a member
has been read, so an immediate closing brace is only legal then. -/
def parseMembers : Nat → Bool → List Char → Option (List (String × Json) × List Char)
  | 0, _, _ => none
  | fuel + 1, first, l =>
    match skipWs l with
    | '}' :: r => if first then some ([], r) else none
    | '"' :: r =>
      match parseStrBody r with
      | none => none
      | some (kcs, r2) =>
        match skipWs r2 with
        | ':' :: r3 =>
          match parseValue fuel r3 with
          | none => none
          | some (v, r4) =>
            match skipWs r4 with
            | ',' :: r5 =>
              (parseMembers fuel false r5).map
                (fun p => ((String.mk kcs, v) :: p.1, p.2))
            | '}' :: r5 => some ([(String.mk kcs, v)], r5)
            | _ => none
        | _ => none
    | _ => none

/-- Array elements after the opening bracket. -/
def parseElems : Nat → Bool → List Char → Option (List Json × List Char)
  | 0, _, _ => none
  | fuel + 1, first, l =>
    match skipWs l with
    | ']' :: r => if first then some ([], r) else none
    | _ =>
      match parseValue fuel l with
      | none => none
      | some (v, r2) =>
        match skipWs r2 with
        | ',' :: r3 => (parseElems fuel false r3).map (fun p => (v :: p.1, p.2))
        | ']' :: r3 => some ([v], r3)
        | _ => none

end

/-- `JSON.parse`: parse a complete value, allowing only trailing
whitespace. -/
def jsonParse (s : String) : Option Json :=
  match parseValue (s.data.length + 1) s.data with
  | some (v, rest) => if skipWs rest = [] then some v else none
  | none => none

/-! ### Round trip of the JSON codec

The round-trip lemmas are parameterised by a character expansion `f`,
covering both the identity (the payload segment, decoded back as UTF-8)
and the bytes-as-latin-1 view (the header segment, which `jwsDecode`
decodes with `Buffer.toString('binary')`): ASCII characters are fixed by
`f`, non-ASCII characters may expand to non-ASCII runs. -/

/-- An admissible expansion: identity on ASCII, and non-ASCII characters
map to nonempty runs of non-ASCII characters. -/
def GoodExpansion (f : Char → List Char) : Prop :=
  (∀ c, c.toNat < 0x80 → f c = [c]) ∧
  (∀ c, 0x80 ≤ c.toNat → f c ≠ [] ∧ ∀ d ∈ f c, 0x80 ≤ d.toNat)

theorem goodExpansion_id : GoodExpansion (fun c => [c]) := by
  refine ⟨fun c _ => rfl, fun c hc => ⟨by simp, ?_⟩⟩
  intro d hd
  simp only [List.mem_singleton] at hd
  subst hd
  exact hc

theorem goodExpansion_latin1 : GoodExpansion utf8AsLatin1 := by
  constructor
  · intro c hc
    exact utf8AsLatin1_ascii hc
  · intro c hc
    obtain ⟨h1, h2⟩ := utf8AsLatin1_high hc
    exact ⟨h1, fun d hd => (h2 d hd).1⟩

theorem flatMap_ascii {f : Char → List Char} (hf : GoodExpansion f)
    {l : List Char} (h : ∀ c ∈ l, c.toNat < 0x80) : l.flatMap f = l := by
  induction l with
  | nil => rfl
  | cons c r ih =>
    rw [List.flatMap_cons, hf.1 c (h c (by simp)), ih (fun d hd => h d (by simp [hd]))]
    rfl

theorem skipWs_cons_of_not_ws {c : Char} (h : ¬ isJsonWs c) (r : List Char) :
    skipWs (c :: r) = c :: r := by
  simp [skipWs, List.dropWhile_cons, h]

/-- The string form of an expansion. -/
def strExpand (f : Char → List Char) (s : String) : String :=
  String.mk (s.data.flatMap f)

mutual

/-- Apply an expansion to every string (values and object keys) in a JSON
value. -/
def jsonMapStr (f : Char → List Char) : Json → Json
  | .null => .null
  | .bool b => .bool b
  | .num n => .num n
  | .str s => .str (strExpand f s)
  | .arr xs => .arr (mapStrElems f xs)
  | .obj kvs => .obj (mapStrMembers f kvs)

/-- `jsonMapStr` on array elements. -/
def mapStrElems (f : Char → List Char) : List Json → List Json
  | [] => []
  | x :: xs => jsonMapStr f x :: mapStrElems f xs

/-- `jsonMapStr` on object members. -/
def mapStrMembers (f : Char → List Char) :
    List (String × Json) → List (String × Json)
  | [] => []
  | (k, v) :: kvs => (strExpand f k, jsonMapStr f v) :: mapStrMembers f kvs

end

theorem strExpand_id (s : String) : strExpand (fun c => [c]) s = s := by
  unfold strExpand
  rw [show s.data.flatMap (fun c => [c]) = s.data from by
    induction s.data with
    | nil => rfl
    | cons c r ih => rw [List.flatMap_cons, ih]; rfl]

mutual

theorem jsonMapStr_id : ∀ v : Json, jsonMapStr (fun c => [c]) v = v
  | .null => rfl
  | .bool _ => rfl
  | .num _ => rfl
  | .str s => by rw [jsonMapStr, strExpand_id]
  | .arr xs => by rw [jsonMapStr, mapStrElems_id xs]
  | .obj kvs => by rw [jsonMapStr, mapStrMembers_id kvs]

theorem mapStrElems_id : ∀ xs : List Json, mapStrElems (fun c => [c]) xs = xs
  | [] => rfl
  | x :: xs => by rw [mapStrElems, jsonMapStr_id x, mapStrElems_id xs]

theorem mapStrMembers_id :
    ∀ kvs : List (String × Json), mapStrMembers (fun c => [c]) kvs = kvs
  | [] => rfl
  | (k, v) :: kvs => by
    rw [mapStrMembers, strExpand_id, jsonMapStr_id v, mapStrMembers_id kvs]

end

theorem parseStrBody_quote (r : List Char) : parseStrBody ('"' :: r) = some ([], r) := by
  rw [parseStrBody.eq_def]
  rfl

theorem parseStrBody_ord {c : Char} (h32 : ¬ c.toNat < 32) (hq : c ≠ '"')
    (hb : c ≠ '\\') (r : List Char) :
    parseStrBody (c :: r) = (parseStrBody r).map (fun p => (c :: p.1, p.2)) := by
  rw [parseStrBody.eq_def]
  simp only [if_neg hq, if_neg hb, if_neg h32]

theorem parseStrBody_ords {ds : List Char} (h : ∀ d ∈ ds, 0x80 ≤ d.toNat)
    (tail : List Char) :
    parseStrBody (ds ++ tail) = (parseStrBody tail).map (fun p => (ds ++ p.1, p.2)) := by
  induction ds with
  | nil =>
    simp
  | cons d ds ih =>
    have hd := h d (by simp)
    have h32 : ¬ d.toNat < 32 := by omega
    have hq : d ≠ '"' := by
      intro he
      rw [he] at hd
      revert hd
      decide
    have hb : d ≠ '\\' := by
      intro he
      rw [he] at hd
      revert hd
      decide
    rw [List.cons_append, parseStrBody_ord h32 hq hb,
      ih (fun x hx => h x (by simp [hx]))]
    cases parseStrBody tail <;> simp

theorem hexDigit_facts (n : Nat) (h : n < 16) :
    (hexDigit n).toNat < 0x80 ∧ hexVal (hexDigit n) = some n := by
  revert n h
  decide

theorem parseStrBody_esc_b (tail : List Char) :
    parseStrBody ('\\' :: 'b' :: tail) =
      (parseStrBody tail).map (fun p => (Char.ofNat 8 :: p.1, p.2)) := by
  rw [parseStrBody.eq_def]
  rfl

theorem parseStrBody_esc_t (tail : List Char) :
    parseStrBody ('\\' :: 't' :: tail) =
      (parseStrBody tail).map (fun p => ('\t' :: p.1, p.2)) := by
  rw [parseStrBody.eq_def]
  rfl

theorem parseStrBody_esc_n (tail : List Char) :
    parseStrBody ('\\' :: 'n' :: tail) =
      (parseStrBody tail).map (fun p => ('\n' :: p.1, p.2)) := by
  rw [parseStrBody.eq_def]
  rfl

theorem parseStrBody_esc_f (tail : List Char) :
    parseStrBody ('\\' :: 'f' :: tail) =
      (parseStrBody tail).map (fun p => (Char.ofNat 12 :: p.1, p.2)) := by
  rw [parseStrBody.eq_def]
  rfl

theorem parseStrBody_esc_r (tail : List Char) :
    parseStrBody ('\\' :: 'r' :: tail) =
      (parseStrBody tail).map (fun p => (Char.ofNat 13 :: p.1, p.2)) := by
  rw [parseStrBody.eq_def]
  rfl

theorem parseStrBody_esc_quote (tail : List Char) :
    parseStrBody ('\\' :: '"' :: tail) =
      (parseStrBody tail).map (fun p => ('"' :: p.1, p.2)) := by
  rw [parseStrBody.eq_def]
  rfl

theorem parseStrBody_esc_back (tail : List Char) :
    parseStrBody ('\\' :: '\\' :: tail) =
      (parseStrBody tail).map (fun p => ('\\' :: p.1, p.2)) := by
  rw [parseStrBody.eq_def]
  rfl

theorem parseStrBody_esc_u {h1 h2 h3 h4 : Char} {a b cv d : Nat}
    (ha : hexVal h1 = some a) (hb : hexVal h2 = some b) (hc : hexVal h3 = some cv)
    (hd : hexVal h4 = some d)
    (hsur : ¬ (0xD800 ≤ a * 4096 + b * 256 + cv * 16 + d ∧
      a * 4096 + b * 256 + cv * 16 + d ≤ 0xDFFF)) (tail : List Char) :
    parseStrBody ('\\' :: 'u' :: h1 :: h2 :: h3 :: h4 :: tail) =
      (parseStrBody tail).map
        (fun p => (Char.ofNat (a * 4096 + b * 256 + cv * 16 + d) :: p.1, p.2)) := by
  rw [parseStrBody.eq_def]
  simp only [reduceIte, reduceCtorEq, ha, hb, hc, hd]
  rw [if_neg hsur, if_neg (show ('\\' : Char) ≠ '"' from by decide)]

theorem parseStrBody_escape {f : Char → List Char} (hf : GoodExpansion f)
    (c : Char) (tail : List Char) :
    parseStrBody ((escapeChar c).flatMap f ++ tail) =
      (parseStrBody tail).map (fun p => (f c ++ p.1, p.2)) := by
  by_cases hquo : c = '"'
  · subst hquo
    rw [show escapeChar '"' = ['\\', '"'] from rfl]
    rw [show (['\\', '"'] : List Char).flatMap f = ['\\', '"'] from
      flatMap_ascii hf (by decide)]
    rw [show ((['\\', '"'] : List Char) ++ tail) = '\\' :: '"' :: tail from rfl]
    rw [parseStrBody_esc_quote, hf.1 '"' (by decide)]
    cases parseStrBody tail <;> rfl
  · by_cases hbs : c = '\\'
    · subst hbs
      rw [show escapeChar '\\' = ['\\', '\\'] from rfl]
      rw [show (['\\', '\\'] : List Char).flatMap f = ['\\', '\\'] from
        flatMap_ascii hf (by decide)]
      rw [show ((['\\', '\\'] : List Char) ++ tail) = '\\' :: '\\' :: tail from rfl]
      rw [parseStrBody_esc_back, hf.1 '\\' (by decide)]
      cases parseStrBody tail <;> rfl
    · by_cases h32 : c.toNat < 32
      · have hfc : f c = [c] := hf.1 c (by omega)
        by_cases h8 : c.toNat = 8
        · have hesc : escapeChar c = ['\\', 'b'] := by
            unfold escapeChar
            rw [if_neg hquo, if_neg hbs, if_pos h8]
          rw [hesc]
          rw [show (['\\', 'b'] : List Char).flatMap f = ['\\', 'b'] from
            flatMap_ascii hf (by decide)]
          rw [show ((['\\', 'b'] : List Char) ++ tail) = '\\' :: 'b' :: tail from rfl]
          rw [parseStrBody_esc_b, hfc,
            show Char.ofNat 8 = c from by rw [← h8, Char.ofNat_toNat]]
          cases parseStrBody tail <;> rfl
        · by_cases h9 : c.toNat = 9
          · have hesc : escapeChar c = ['\\', 't'] := by
              unfold escapeChar
              rw [if_neg hquo, if_neg hbs, if_neg h8, if_pos h9]
            rw [hesc]
            rw [show (['\\', 't'] : List Char).flatMap f = ['\\', 't'] from
              flatMap_ascii hf (by decide)]
            rw [show ((['\\', 't'] : List Char) ++ tail) = '\\' :: 't' :: tail from rfl]
            rw [parseStrBody_esc_t, hfc,
              show '\t' = c from by
                have h2c : Char.ofNat 9 = c := by rw [← h9, Char.ofNat_toNat]
                rw [← h2c]]
            cases parseStrBody tail <;> rfl
          · by_cases h10 : c.toNat = 10
            · have hesc : escapeChar c = ['\\', 'n'] := by
                unfold escapeChar
                rw [if_neg hquo, if_neg hbs, if_neg h8, if_neg h9, if_pos h10]
              rw [hesc]
              rw [show (['\\', 'n'] : List Char).flatMap f = ['\\', 'n'] from
                flatMap_ascii hf (by decide)]
              rw [show ((['\\', 'n'] : List Char) ++ tail) = '\\' :: 'n' :: tail from rfl]
              rw [parseStrBody_esc_n, hfc,
                show '\n' = c from by
                  have h2c : Char.ofNat 10 = c := by rw [← h10, Char.ofNat_toNat]
                  rw [← h2c]]
              cases parseStrBody tail <;> rfl
            · by_cases h12 : c.toNat = 12
              · have hesc : escapeChar c = ['\\', 'f'] := by
                  unfold escapeChar
                  rw [if_neg hquo, if_neg hbs, if_neg h8, if_neg h9, if_neg h10,
                    if_pos h12]
                rw [hesc]
                rw [show (['\\', 'f'] : List Char).flatMap f = ['\\', 'f'] from
                  flatMap_ascii hf (by decide)]
                rw [show ((['\\', 'f'] : List Char) ++ tail) = '\\' :: 'f' :: tail from
                  rfl]
                rw [parseStrBody_esc_f, hfc,
                  show Char.ofNat 12 = c from by rw [← h12, Char.ofNat_toNat]]
                cases parseStrBody tail <;> rfl
              · by_cases h13 : c.toNat = 13
                · have hesc : escapeChar c = ['\\', 'r'] := by
                    unfold escapeChar
                    rw [if_neg hquo, if_neg hbs, if_neg h8, if_neg h9, if_neg h10,
                      if_neg h12, if_pos h13]
                  rw [hesc]
                  rw [show (['\\', 'r'] : List Char).flatMap f = ['\\', 'r'] from
                    flatMap_ascii hf (by decide)]
                  rw [show ((['\\', 'r'] : List Char) ++ tail) = '\\' :: 'r' :: tail from
                    rfl]
                  rw [parseStrBody_esc_r, hfc,
                    show Char.ofNat 13 = c from by rw [← h13, Char.ofNat_toNat]]
                  cases parseStrBody tail <;> rfl
                · have hesc : escapeChar c = ['\\', 'u', '0', '0',
                      hexDigit (c.toNat / 16), hexDigit (c.toNat % 16)] := by
                    unfold escapeChar
                    rw [if_neg hquo, if_neg hbs, if_neg h8, if_neg h9, if_neg h10,
                      if_neg h12, if_neg h13, if_pos h32]
                  have hhi := hexDigit_facts (c.toNat / 16) (by omega)
                  have hlo := hexDigit_facts (c.toNat % 16) (by omega)
                  rw [hesc]
                  rw [show (['\\', 'u', '0', '0', hexDigit (c.toNat / 16),
                      hexDigit (c.toNat % 16)] : List Char).flatMap f =
                      ['\\', 'u', '0', '0', hexDigit (c.toNat / 16),
                       hexDigit (c.toNat % 16)] from
                    flatMap_ascii hf (by
                      intro x hx
                      simp only [List.mem_cons, List.not_mem_nil, or_false] at hx
                      rcases hx with rfl | rfl | rfl | rfl | rfl | rfl
                      · decide
                      · decide
                      · decide
                      · decide
                      · exact hhi.1
                      · exact hlo.1)]
                  rw [List.cons_append, List.cons_append, List.cons_append,
                    List.cons_append, List.cons_append, List.singleton_append]
                  rw [parseStrBody_esc_u (show hexVal '0' = some 0 from rfl)
                    (show hexVal '0' = some 0 from rfl) hhi.2 hlo.2
                    (by omega) tail]
                  rw [hfc]
                  rw [show 0 * 4096 + 0 * 256 + c.toNat / 16 * 16 + c.toNat % 16 =
                    c.toNat from by omega]
                  rw [Char.ofNat_toNat]
                  cases parseStrBody tail <;> rfl
      · have hesc : escapeChar c = [c] := by
          unfold escapeChar
          rw [if_neg hquo, if_neg hbs, if_neg (by omega), if_neg (by omega),
            if_neg (by omega), if_neg (by omega), if_neg (by omega), if_neg h32]
        rw [hesc]
        by_cases h80 : c.toNat < 0x80
        · have hfc : f c = [c] := hf.1 c h80
          rw [show ([c] : List Char).flatMap f = f c from by simp, hfc]
          rw [List.singleton_append, parseStrBody_ord h32 hquo hbs]
          cases parseStrBody tail <;> rfl
        · obtain ⟨hne, hall⟩ := hf.2 c (by omega)
          rw [show ([c] : List Char).flatMap f = f c from by simp]
          rw [parseStrBody_ords hall]


theorem parseStrBody_strLitBody {f : Char → List Char} (hf : GoodExpansion f)
    (cs : List Char) (tail : List Char) :
    parseStrBody ((cs.flatMap escapeChar).flatMap f ++ '"' :: tail) =
      some (cs.flatMap f, tail) := by
  induction cs with
  | nil =>
    rw [show (([] : List Char).flatMap escapeChar).flatMap f = [] from rfl,
      List.nil_append, parseStrBody_quote]
    rfl
  | cons c cs ih =>
    rw [List.flatMap_cons, List.flatMap_append, List.append_assoc,
      parseStrBody_escape hf, ih]
    rw [List.flatMap_cons]
    rfl

theorem digitChar_facts (d : Nat) (h : d < 10) :
    isDigitChar (digitChar d) ∧ (digitChar d).toNat = 48 + d ∧
      (digitChar d).toNat < 0x80 ∧ digitChar d ≠ '-' := by
  revert d h
  decide

/-- The continuation after a serialised number must not begin with another
digit (always true at the call sites: a separator, bracket or end). -/
def headNotDigit : List Char → Prop
  | [] => True
  | c :: _ => ¬ isDigitChar c

theorem takeDigits_stop {tail : List Char} (h : headNotDigit tail) :
    takeDigits tail = ([], tail) := by
  cases tail with
  | nil => rfl
  | cons c r =>
    unfold takeDigits
    rw [if_neg h]

theorem takeDigits_digits {ds : List Nat} (h : ∀ d ∈ ds, d < 10)
    {tail : List Char} (ht : headNotDigit tail) :
    takeDigits (ds.map digitChar ++ tail) = (ds, tail) := by
  induction ds with
  | nil =>
    rw [List.map_nil, List.nil_append]
    exact takeDigits_stop ht
  | cons d ds ih =>
    have hd := digitChar_facts d (h d (by simp))
    rw [List.map_cons, List.cons_append]
    unfold takeDigits
    rw [if_pos hd.1, ih (fun x hx => h x (by simp [hx]))]
    rw [show (digitChar d).toNat - 48 = d from by omega]

theorem valOfDigits_digits (n : Nat) :
    valOfDigits ((Nat.digits 10 n).reverse) = n := by
  unfold valOfDigits
  rw [List.reverse_reverse, Nat.ofDigits_digits]

theorem parseNatNum_natChars (n : Nat) {tail : List Char} (ht : headNotDigit tail) :
    parseNatNum (natChars n ++ tail) = some (n, tail) := by
  by_cases hn : n = 0
  · subst hn
    rw [show natChars 0 = ['0'] from rfl, List.singleton_append]
    unfold parseNatNum
    unfold takeDigits
    rw [if_pos (by decide), takeDigits_stop ht]
    rfl
  · have hds : ∀ d ∈ (Nat.digits 10 n).reverse, d < 10 := by
      intro d hd
      exact Nat.digits_lt_base (by norm_num) (List.mem_reverse.mp hd)
    have hchars : natChars n = ((Nat.digits 10 n).reverse).map digitChar := by
      unfold natChars
      rw [if_neg hn, List.map_reverse]
    rw [hchars]
    unfold parseNatNum
    rw [takeDigits_digits hds ht]
    rcases hrev : (Nat.digits 10 n).reverse with _ | ⟨d, ds⟩
    · exfalso
      have : Nat.digits 10 n = [] := by
        have := congrArg List.reverse hrev
        simpa using this
      exact hn (by simpa [this] using (@Nat.digits_ne_nil_iff_ne_zero 10 n).mpr hn)
    · have hgl : (Nat.digits 10 n).getLast? = some d := by
        rw [List.getLast?_eq_head?_reverse, hrev]
        rfl
      have hne : Nat.digits 10 n ≠ [] := by
        intro he
        rw [he] at hgl
        simp at hgl
      have hd0 : d ≠ 0 := by
        have hgl2 := List.getLast?_eq_getLast (Nat.digits 10 n) hne
        rw [hgl] at hgl2
        have h1 : d = (Nat.digits 10 n).getLast hne := Option.some_inj.mp hgl2
        rw [h1]
        exact Nat.getLast_digit_ne_zero 10 hn
      have hnott : ¬ (d = 0 ∧ ds ≠ []) := fun hc => hd0 hc.1
      show (if d = 0 ∧ ds ≠ [] then none
        else some (valOfDigits (d :: ds), tail)) = some (n, tail)
      rw [if_neg hnott, ← hrev, valOfDigits_digits]

theorem natChars_mem_digit (n : Nat) :
    ∀ c ∈ natChars n, ∃ d, d < 10 ∧ c = digitChar d := by
  intro c hc
  unfold natChars at hc
  by_cases hn : n = 0
  · rw [if_pos hn] at hc
    simp only [List.mem_singleton] at hc
    exact ⟨0, by norm_num, by rw [hc]; rfl⟩
  · rw [if_neg hn] at hc
    rw [List.mem_reverse] at hc
    obtain ⟨d, hd, rfl⟩ := List.mem_map.mp hc
    exact ⟨d, Nat.digits_lt_base (by norm_num) hd, rfl⟩

theorem natChars_ne_nil (n : Nat) : natChars n ≠ [] := by
  unfold natChars
  by_cases hn : n = 0
  · rw [if_pos hn]
    simp
  · rw [if_neg hn]
    simp only [ne_eq, List.reverse_eq_nil_iff, List.map_eq_nil_iff]
    exact (@Nat.digits_ne_nil_iff_ne_zero 10 n).mpr hn

theorem parseIntNum_intChars (n : Int) {tail : List Char} (ht : headNotDigit tail) :
    parseIntNum (intChars n ++ tail) = some (n, tail) := by
  by_cases hneg : n < 0
  · rw [show intChars n = '-' :: natChars n.natAbs from by unfold intChars; rw [if_pos hneg]]
    rw [List.cons_append]
    unfold parseIntNum
    rw [if_pos (by rw [List.head?_cons]), List.tail_cons, parseNatNum_natChars _ ht]
    show some (-(n.natAbs : Int), tail) = some (n, tail)
    rw [show (-(n.natAbs : Int)) = n from by omega]
  · rw [show intChars n = natChars n.toNat from by unfold intChars; rw [if_neg hneg]]
    unfold parseIntNum
    rcases hnc : natChars n.toNat with _ | ⟨c, cs⟩
    · exact absurd hnc (natChars_ne_nil _)
    · have hcd : c ∈ natChars n.toNat := by
        rw [hnc]
        simp
      obtain ⟨d, hd10, rfl⟩ := natChars_mem_digit n.toNat c hcd
      rw [List.cons_append, List.head?_cons]
      rw [if_neg (by
        intro he
        exact (digitChar_facts d hd10).2.2.2 (Option.some_inj.mp he))]
      rw [← List.cons_append, ← hnc, parseNatNum_natChars _ ht]
      show some ((n.toNat : Int), tail) = some (n, tail)
      rw [show ((n.toNat : Int)) = n from by omega]

mutual

/-- Fuel bound needed to parse a serialised value. -/
def jsonSize : Json → Nat
  | .arr xs => 1 + elemsSize xs
  | .obj kvs => 1 + membersSize kvs
  | _ => 1

/-- Fuel bound for array elements. -/
def elemsSize : List Json → Nat
  | [] => 1
  | x :: xs => 1 + max (jsonSize x) (elemsSize xs)

/-- Fuel bound for object members. -/
def membersSize : List (String × Json) → Nat
  | [] => 1
  | (_, v) :: kvs => 1 + max (jsonSize v) (membersSize kvs)

end

theorem jsonSize_pos (v : Json) : 1 ≤ jsonSize v := by
  cases v <;> simp [jsonSize]

theorem elemsSize_pos (xs : List Json) : 1 ≤ elemsSize xs := by
  cases xs <;> simp [elemsSize]

theorem membersSize_pos (kvs : List (String × Json)) : 1 ≤ membersSize kvs := by
  cases kvs with
  | nil => simp [membersSize]
  | cons kv tl =>
    obtain ⟨k, v⟩ := kv
    simp [membersSize]

theorem parseValue_succ (fuel : Nat) (l : List Char) :
    parseValue (fuel + 1) l =
      match skipWs l with
      | [] => none
      | c :: r =>
        if c = '{' then
          (parseMembers fuel true r).map (fun p => (Json.obj p.1, p.2))
        else if c = '[' then
          (parseElems fuel true r).map (fun p => (Json.arr p.1, p.2))
        else if c = '"' then
          (parseStrBody r).map (fun p => (Json.str (String.mk p.1), p.2))
        else if c = 't' then
          match r with
          | 'r' :: 'u' :: 'e' :: r2 => some (Json.bool true, r2)
          | _ => none
        else if c = 'f' then
          match r with
          | 'a' :: 'l' :: 's' :: 'e' :: r2 => some (Json.bool false, r2)
          | _ => none
        else if c = 'n' then
          match r with
          | 'u' :: 'l' :: 'l' :: r2 => some (Json.null, r2)
          | _ => none
        else if c = '-' ∨ isDigitChar c then
          (parseIntNum (c :: r)).map (fun p => (Json.num p.1, p.2))
        else none := rfl

theorem parseMembers_succ (fuel : Nat) (first : Bool) (l : List Char) :
    parseMembers (fuel + 1) first l =
      match skipWs l with
      | '}' :: r => if first then some ([], r) else none
      | '"' :: r =>
        match parseStrBody r with
        | none => none
        | some (kcs, r2) =>
          match skipWs r2 with
          | ':' :: r3 =>
            match parseValue fuel r3 with
            | none => none
            | some (v, r4) =>
              match skipWs r4 with
              | ',' :: r5 =>
                (parseMembers fuel false r5).map
                  (fun p => ((String.mk kcs, v) :: p.1, p.2))
              | '}' :: r5 => some ([(String.mk kcs, v)], r5)
              | _ => none
          | _ => none
      | _ => none := rfl

theorem parseElems_succ (fuel : Nat) (first : Bool) (l : List Char) :
    parseElems (fuel + 1) first l =
      match skipWs l with
      | ']' :: r => if first then some ([], r) else none
      | _ =>
        match parseValue fuel l with
        | none => none
        | some (v, r2) =>
          match skipWs r2 with
          | ',' :: r3 => (parseElems fuel false r3).map (fun p => (v :: p.1, p.2))
          | ']' :: r3 => some ([v], r3)
          | _ => none := rfl

theorem parseValue_keyword_null (g : Nat) (rest : List Char) :
    parseValue (g + 1) ('n' :: 'u' :: 'l' :: 'l' :: rest) = some (Json.null, rest) := by
  rw [parseValue_succ, skipWs_cons_of_not_ws (show ¬ isJsonWs 'n' from by decide)]
  rfl

theorem parseValue_keyword_true (g : Nat) (rest : List Char) :
    parseValue (g + 1) ('t' :: 'r' :: 'u' :: 'e' :: rest) =
      some (Json.bool true, rest) := by
  rw [parseValue_succ, skipWs_cons_of_not_ws (show ¬ isJsonWs 't' from by decide)]
  rfl

theorem parseValue_keyword_false (g : Nat) (rest : List Char) :
    parseValue (g + 1) ('f' :: 'a' :: 'l' :: 's' :: 'e' :: rest) =
      some (Json.bool false, rest) := by
  rw [parseValue_succ, skipWs_cons_of_not_ws (show ¬ isJsonWs 'f' from by decide)]
  rfl

theorem parseValue_quote (g : Nat) (body : List Char) :
    parseValue (g + 1) ('"' :: body) =
      (parseStrBody body).map (fun p => (Json.str (String.mk p.1), p.2)) := by
  rw [parseValue_succ, skipWs_cons_of_not_ws (show ¬ isJsonWs '"' from by decide)]
  rfl

theorem parseValue_brace (g : Nat) (body : List Char) :
    parseValue (g + 1) ('{' :: body) =
      (parseMembers g true body).map (fun p => (Json.obj p.1, p.2)) := by
  rw [parseValue_succ, skipWs_cons_of_not_ws (show ¬ isJsonWs '{' from by decide)]
  rfl

theorem parseValue_brack (g : Nat) (body : List Char) :
    parseValue (g + 1) ('[' :: body) =
      (parseElems g true body).map (fun p => (Json.arr p.1, p.2)) := by
  rw [parseValue_succ, skipWs_cons_of_not_ws (show ¬ isJsonWs '[' from by decide)]
  rfl

theorem isJsonWs_vals {c : Char} (h : isJsonWs c) :
    c.toNat = 32 ∨ c.toNat = 9 ∨ c.toNat = 10 ∨ c.toNat = 13 := by
  simp only [isJsonWs, Bool.or_eq_true, decide_eq_true_eq] at h
  rcases h with h | h | h | h <;> subst h <;> decide

theorem parseValue_numHead (g : Nat) {c : Char} (h : c = '-' ∨ isDigitChar c)
    (r : List Char) :
    parseValue (g + 1) (c :: r) =
      (parseIntNum (c :: r)).map (fun p => (Json.num p.1, p.2)) := by
  have hws : ¬ isJsonWs c := by
    intro hw
    have hv := isJsonWs_vals hw
    rcases h with h | h
    · subst h
      revert hv
      decide
    · unfold isDigitChar at h
      simp only [Bool.and_eq_true, decide_eq_true_eq] at h
      omega
  have hne : c ≠ '{' ∧ c ≠ '[' ∧ c ≠ '"' ∧ c ≠ 't' ∧ c ≠ 'f' ∧ c ≠ 'n' := by
    rcases h with h | h
    · subst h
      decide
    · unfold isDigitChar at h
      simp only [Bool.and_eq_true, decide_eq_true_eq] at h
      refine ⟨?_, ?_, ?_, ?_, ?_, ?_⟩ <;>
        (rintro rfl; revert h; decide)
  obtain ⟨h1, h2, h3, h4, h5, h6⟩ := hne
  rw [parseValue_succ, skipWs_cons_of_not_ws hws]
  simp only [if_neg h1, if_neg h2, if_neg h3, if_neg h4, if_neg h5, if_neg h6,
    if_pos h]

theorem parseMembers_close (g : Nat) (rest : List Char) :
    parseMembers (g + 1) true ('}' :: rest) = some ([], rest) := by
  rw [parseMembers_succ, skipWs_cons_of_not_ws (show ¬ isJsonWs '}' from by decide)]
  rfl

theorem parseMembers_key (g : Nat) (first : Bool) (body : List Char) :
    parseMembers (g + 1) first ('"' :: body) =
      match parseStrBody body with
      | none => none
      | some (kcs, r2) =>
        match skipWs r2 with
        | ':' :: r3 =>
          match parseValue g r3 with
          | none => none
          | some (v, r4) =>
            match skipWs r4 with
            | ',' :: r5 =>
              (parseMembers g false r5).map (fun p => ((String.mk kcs, v) :: p.1, p.2))
            | '}' :: r5 => some ([(String.mk kcs, v)], r5)
            | _ => none
        | _ => none := by
  rw [parseMembers_succ, skipWs_cons_of_not_ws (show ¬ isJsonWs '"' from by decide)]
  rfl

theorem parseElems_close (g : Nat) (rest : List Char) :
    parseElems (g + 1) true (']' :: rest) = some ([], rest) := by
  rw [parseElems_succ, skipWs_cons_of_not_ws (show ¬ isJsonWs ']' from by decide)]
  rfl

theorem headNotDigit_of {c : Char} (h : ¬ isDigitChar c) (x : List Char) :
    headNotDigit (c :: x) := h

theorem flatMap_cons_ascii {f : Char → List Char} (hf : GoodExpansion f) {c : Char}
    (hc : c.toNat < 0x80) (l : List Char) : (c :: l).flatMap f = c :: l.flatMap f := by
  rw [List.flatMap_cons, hf.1 c hc]
  rfl

theorem intChars_props (n : Int) :
    ∃ c cs, intChars n = c :: cs ∧ (c = '-' ∨ isDigitChar c) ∧
      ∀ x ∈ intChars n, x.toNat < 0x80 := by
  have hascii : ∀ m : Nat, ∀ x ∈ natChars m, x.toNat < 0x80 := by
    intro m x hx
    obtain ⟨d, hd, rfl⟩ := natChars_mem_digit m x hx
    exact (digitChar_facts d hd).2.2.1
  by_cases hneg : n < 0
  · have he : intChars n = '-' :: natChars n.natAbs := by
      unfold intChars
      rw [if_pos hneg]
    refine ⟨'-', natChars n.natAbs, he, Or.inl rfl, ?_⟩
    intro x hx
    rw [he] at hx
    rcases List.mem_cons.mp hx with rfl | hx
    · decide
    · exact hascii _ x hx
  · have he : intChars n = natChars n.toNat := by
      unfold intChars
      rw [if_neg hneg]
    rcases hnc : natChars n.toNat with _ | ⟨c, cs⟩
    · exact absurd hnc (natChars_ne_nil _)
    · have hc : c ∈ natChars n.toNat := by
        rw [hnc]
        simp
      obtain ⟨d, hd, rfl⟩ := natChars_mem_digit n.toNat c hc
      refine ⟨digitChar d, cs, by rw [he, hnc], Or.inr (digitChar_facts d hd).1, ?_⟩
      intro x hx
      rw [he] at hx
      exact hascii _ x hx

theorem digit_head_ne {c : Char} (h : c = '-' ∨ isDigitChar c) :
    ¬ isJsonWs c ∧ c ≠ ']' ∧ c.toNat < 0x80 := by
  rcases h with h | h
  · subst h
    refine ⟨by decide, by decide, by decide⟩
  · have hb : 48 ≤ c.toNat ∧ c.toNat ≤ 57 := by
      simpa [isDigitChar] using h
    refine ⟨?_, ?_, by omega⟩
    · intro hw
      have := isJsonWs_vals hw
      omega
    · rintro rfl
      revert h
      decide

/-- The first character of a serialised value: never whitespace, never a
closing bracket, always ASCII. -/
theorem stringify_head (v : Json) :
    ∃ c l2, jsonStringify v = c :: l2 ∧ c.toNat < 0x80 ∧ ¬ isJsonWs c ∧ c ≠ ']' := by
  cases v with
  | null =>
    refine ⟨'n', _, rfl, ?_, ?_, ?_⟩ <;> decide
  | bool b =>
    cases b <;> (refine ⟨_, _, rfl, ?_, ?_, ?_⟩ <;> decide)
  | num n =>
    obtain ⟨c, cs, he, hh, hascii⟩ := intChars_props n
    obtain ⟨hws, hne, h80⟩ := digit_head_ne hh
    exact ⟨c, cs, by rw [show jsonStringify (Json.num n) = intChars n from rfl, he],
      h80, hws, hne⟩
  | str s =>
    refine ⟨'"', _, rfl, ?_, ?_, ?_⟩ <;> decide
  | arr xs =>
    refine ⟨'[', _, rfl, ?_, ?_, ?_⟩ <;> decide
  | obj kvs =>
    refine ⟨'{', _, rfl, ?_, ?_, ?_⟩ <;> decide

mutual

/-- Parsing the (expanded) serialisation of a value yields the value with
its strings expanded, consuming exactly the serialised text. -/
theorem stringify_parse_value {f : Char → List Char} (hf : GoodExpansion f) :
    ∀ (v : Json) (fuel : Nat) (rest : List Char), jsonSize v ≤ fuel →
      headNotDigit rest →
      parseValue fuel ((jsonStringify v).flatMap f ++ rest) =
        some (jsonMapStr f v, rest)
  | v, 0, rest, hfuel, _ => absurd hfuel (by
      have := jsonSize_pos v
      omega)
  | .null, g + 1, rest, _, _ => by
    rw [show jsonStringify Json.null = ['n', 'u', 'l', 'l'] from rfl,
      flatMap_ascii hf (by decide)]
    exact parseValue_keyword_null g rest
  | .bool true, g + 1, rest, _, _ => by
    rw [show jsonStringify (Json.bool true) = ['t', 'r', 'u', 'e'] from rfl,
      flatMap_ascii hf (by decide)]
    exact parseValue_keyword_true g rest
  | .bool false, g + 1, rest, _, _ => by
    rw [show jsonStringify (Json.bool false) = ['f', 'a', 'l', 's', 'e'] from rfl,
      flatMap_ascii hf (by decide)]
    exact parseValue_keyword_false g rest
  | .num n, g + 1, rest, _, hrest => by
    obtain ⟨c, cs, he, hh, hascii⟩ := intChars_props n
    rw [show jsonStringify (Json.num n) = intChars n from rfl,
      flatMap_ascii hf hascii, he, List.cons_append, parseValue_numHead g hh,
      ← List.cons_append, ← he, parseIntNum_intChars n hrest]
    rfl
  | .str s, g + 1, rest, _, _ => by
    rw [show jsonStringify (Json.str s) = strLit s from rfl]
    rw [show strLit s = '"' :: (s.data.flatMap escapeChar ++ ['"']) from rfl]
    rw [flatMap_cons_ascii hf (by decide), List.flatMap_append,
      show (['"'] : List Char).flatMap f = ['"'] from flatMap_ascii hf (by decide)]
    rw [List.cons_append, List.append_assoc, List.singleton_append]
    rw [parseValue_quote, parseStrBody_strLitBody hf]
    rfl
  | .arr xs, g + 1, rest, hfuel, _ => by
    rw [show jsonStringify (Json.arr xs) = '[' :: stringifyElems xs from rfl,
      flatMap_cons_ascii hf (by decide), List.cons_append, parseValue_brack,
      stringify_parse_elems hf xs g true rest
        (by
          have : jsonSize (Json.arr xs) = 1 + elemsSize xs := rfl
          omega)
        (fun _ => rfl)]
    rfl
  | .obj kvs, g + 1, rest, hfuel, _ => by
    rw [show jsonStringify (Json.obj kvs) = '{' :: stringifyMembers kvs from rfl,
      flatMap_cons_ascii hf (by decide), List.cons_append, parseValue_brace,
      stringify_parse_members hf kvs g true rest
        (by
          have : jsonSize (Json.obj kvs) = 1 + membersSize kvs := rfl
          omega)
        (fun _ => rfl)]
    rfl

/-- Parsing the (expanded) serialised member list of an object. -/
theorem stringify_parse_members {f : Char → List Char} (hf : GoodExpansion f) :
    ∀ (kvs : List (String × Json)) (fuel : Nat) (first : Bool) (rest : List Char),
      membersSize kvs ≤ fuel → (kvs = [] → first = true) →
      parseMembers fuel first ((stringifyMembers kvs).flatMap f ++ rest) =
        some (mapStrMembers f kvs, rest)
  | kvs, 0, _, rest, hfuel, _ => absurd hfuel (by
      have := membersSize_pos kvs
      omega)
  | [], g + 1, first, rest, _, hfirst => by
    rw [hfirst rfl, show stringifyMembers [] = ['}'] from rfl,
      flatMap_ascii hf (by decide)]
    exact parseMembers_close g rest
  | [(k, v)], g + 1, first, rest, hfuel, _ => by
    have hsize : jsonSize v ≤ g := by
      have h1 : membersSize [(k, v)] = 1 + max (jsonSize v) (membersSize []) := rfl
      omega
    have hq : f '"' = ['"'] := hf.1 _ (by decide)
    have hcolon : f ':' = [':'] := hf.1 _ (by decide)
    have hbrace : f '}' = ['}'] := hf.1 _ (by decide)
    have hshape : ((stringifyMembers [(k, v)]).flatMap f) ++ rest =
        '"' :: ((k.data.flatMap escapeChar).flatMap f ++
          '"' :: ':' :: ((jsonStringify v).flatMap f ++ '}' :: rest)) := by
      unfold stringifyMembers strLit
      simp only [List.flatMap_append, List.flatMap_cons, List.flatMap_nil, hq,
        hcolon, hbrace, List.append_nil, List.nil_append, List.append_assoc,
        List.cons_append, List.singleton_append]
    rw [hshape, parseMembers_key, parseStrBody_strLitBody hf]
    have ihv := stringify_parse_value hf v g ('}' :: rest) hsize
      (headNotDigit_of (by decide) rest)
    simp only [skipWs_cons_of_not_ws (show ¬ isJsonWs ':' from by decide),
      skipWs_cons_of_not_ws (show ¬ isJsonWs '}' from by decide), ihv]
    rfl
  | (k, v) :: p2 :: tl2, g + 1, first, rest, hfuel, _ => by
    have h1 : membersSize ((k, v) :: p2 :: tl2) =
        1 + max (jsonSize v) (membersSize (p2 :: tl2)) := rfl
    have hsizev : jsonSize v ≤ g := by omega
    have hsizetl : membersSize (p2 :: tl2) ≤ g := by omega
    have hq : f '"' = ['"'] := hf.1 _ (by decide)
    have hcolon : f ':' = [':'] := hf.1 _ (by decide)
    have hcomma : f ',' = [','] := hf.1 _ (by decide)
    have hshape : ((stringifyMembers ((k, v) :: p2 :: tl2)).flatMap f) ++ rest =
        '"' :: ((k.data.flatMap escapeChar).flatMap f ++
          '"' :: ':' :: ((jsonStringify v).flatMap f ++
            ',' :: ((stringifyMembers (p2 :: tl2)).flatMap f ++ rest))) := by
      rw [show stringifyMembers ((k, v) :: p2 :: tl2) =
          strLit k ++ ':' :: jsonStringify v ++ ',' :: stringifyMembers (p2 :: tl2)
          from by unfold stringifyMembers; rfl]
      unfold strLit
      simp only [List.flatMap_append, List.flatMap_cons, List.flatMap_nil, hq,
        hcolon, hcomma, List.append_nil, List.nil_append, List.append_assoc,
        List.cons_append, List.singleton_append]
    rw [hshape, parseMembers_key, parseStrBody_strLitBody hf]
    have ihv := stringify_parse_value hf v g
      (',' :: ((stringifyMembers (p2 :: tl2)).flatMap f ++ rest)) hsizev
      (headNotDigit_of (by decide) _)
    have ihm := stringify_parse_members hf (p2 :: tl2) g false rest hsizetl
      (by simp)
    simp only [skipWs_cons_of_not_ws (show ¬ isJsonWs ':' from by decide),
      skipWs_cons_of_not_ws (show ¬ isJsonWs ',' from by decide), ihv, ihm]
    rfl

/-- Parsing the (expanded) serialised element list of an array. -/
theorem stringify_parse_elems {f : Char → List Char} (hf : GoodExpansion f) :
    ∀ (xs : List Json) (fuel : Nat) (first : Bool) (rest : List Char),
      elemsSize xs ≤ fuel → (xs = [] → first = true) →
      parseElems fuel first ((stringifyElems xs).flatMap f ++ rest) =
        some (mapStrElems f xs, rest)
  | xs, 0, _, rest, hfuel, _ => absurd hfuel (by
      have := elemsSize_pos xs
      omega)
  | [], g + 1, first, rest, _, hfirst => by
    rw [hfirst rfl, show stringifyElems [] = [']'] from rfl,
      flatMap_ascii hf (by decide)]
    exact parseElems_close g rest
  | [x], g + 1, first, rest, hfuel, _ => by
    have hsize : jsonSize x ≤ g := by
      have h1 : elemsSize [x] = 1 + max (jsonSize x) (elemsSize []) := rfl
      omega
    obtain ⟨c, l2, hhead, h80, hws, hne⟩ := stringify_head x
    have hbrk : f ']' = [']'] := hf.1 _ (by decide)
    have hshape : ((stringifyElems [x]).flatMap f) ++ rest =
        c :: (l2.flatMap f ++ ']' :: rest) := by
      rw [show stringifyElems [x] = jsonStringify x ++ [']'] from by
        unfold stringifyElems; rfl]
      rw [hhead]
      simp only [List.flatMap_append, List.flatMap_cons, List.flatMap_nil, hbrk,
        hf.1 c h80, List.append_nil, List.nil_append, List.append_assoc,
        List.cons_append, List.singleton_append]
    have ihx := stringify_parse_value hf x g (']' :: rest) hsize
      (headNotDigit_of (by decide) rest)
    rw [hhead, flatMap_cons_ascii hf h80] at ihx
    rw [hshape, parseElems_succ, skipWs_cons_of_not_ws hws]
    split
    · rename_i r heq
      exact absurd (List.head_eq_of_cons_eq heq) hne
    · rw [show c :: (l2.flatMap f ++ ']' :: rest) =
        (c :: l2.flatMap f) ++ ']' :: rest from rfl, ihx]
      simp only [skipWs_cons_of_not_ws (show ¬ isJsonWs ']' from by decide)]
      rfl
  | x :: x2 :: xs2, g + 1, first, rest, hfuel, _ => by
    have h1 : elemsSize (x :: x2 :: xs2) =
        1 + max (jsonSize x) (elemsSize (x2 :: xs2)) := rfl
    have hsizex : jsonSize x ≤ g := by omega
    have hsizetl : elemsSize (x2 :: xs2) ≤ g := by omega
    obtain ⟨c, l2, hhead, h80, hws, hne⟩ := stringify_head x
    have hcomma : f ',' = [','] := hf.1 _ (by decide)
    have hshape : ((stringifyElems (x :: x2 :: xs2)).flatMap f) ++ rest =
        c :: (l2.flatMap f ++ ',' :: ((stringifyElems (x2 :: xs2)).flatMap f ++ rest)) := by
      rw [show stringifyElems (x :: x2 :: xs2) =
          jsonStringify x ++ ',' :: stringifyElems (x2 :: xs2) from by
        unfold stringifyElems; rfl]
      rw [hhead]
      simp only [List.flatMap_append, List.flatMap_cons, List.flatMap_nil, hcomma,
        hf.1 c h80, List.append_nil, List.nil_append, List.append_assoc,
        List.cons_append, List.singleton_append]
    have ihx := stringify_parse_value hf x g
      (',' :: ((stringifyElems (x2 :: xs2)).flatMap f ++ rest)) hsizex
      (headNotDigit_of (by decide) _)
    rw [hhead, flatMap_cons_ascii hf h80] at ihx
    have ihtl := stringify_parse_elems hf (x2 :: xs2) g false rest hsizetl (by simp)
    rw [hshape, parseElems_succ, skipWs_cons_of_not_ws hws]
    split
    · rename_i r heq
      exact absurd (List.head_eq_of_cons_eq heq) hne
    · rw [show c :: (l2.flatMap f ++ ',' :: ((stringifyElems (x2 :: xs2)).flatMap f ++ rest)) =
        (c :: l2.flatMap f) ++ ',' :: ((stringifyElems (x2 :: xs2)).flatMap f ++ rest)
        from rfl, ihx]
      simp only [skipWs_cons_of_not_ws (show ¬ isJsonWs ',' from by decide), ihtl]
      rfl

end

theorem expand_length_ge {f : Char → List Char} (hf : GoodExpansion f)
    (l : List Char) : l.length ≤ (l.flatMap f).length := by
  induction l with
  | nil => simp
  | cons c r ih =>
    rw [List.flatMap_cons, List.length_append, List.length_cons]
    have hne : f c ≠ [] := by
      by_cases h80 : c.toNat < 0x80
      · rw [hf.1 c h80]
        simp
      · exact (hf.2 c (by omega)).1
    have : 1 ≤ (f c).length := by
      cases hfc : f c with
      | nil => exact absurd hfc hne
      | cons a b => simp
    omega

mutual

theorem jsonSize_le_length : ∀ v : Json, jsonSize v ≤ (jsonStringify v).length + 1
  | .null => by decide
  | .bool true => by decide
  | .bool false => by decide
  | .num n => by
    have h1 : jsonSize (Json.num n) = 1 := rfl
    omega
  | .str s => by
    have h1 : jsonSize (Json.str s) = 1 := rfl
    omega
  | .arr xs => by
    have h1 : jsonSize (Json.arr xs) = 1 + elemsSize xs := rfl
    have h2 : jsonStringify (Json.arr xs) = '[' :: stringifyElems xs := rfl
    have h3 := elemsSize_le_length xs
    rw [h1, h2, List.length_cons]
    omega

  | .obj kvs => by
    have h1 : jsonSize (Json.obj kvs) = 1 + membersSize kvs := rfl
    have h2 : jsonStringify (Json.obj kvs) = '{' :: stringifyMembers kvs := rfl
    have h3 := membersSize_le_length kvs
    rw [h1, h2, List.length_cons]
    omega

theorem elemsSize_le_length : ∀ xs : List Json, elemsSize xs ≤ (stringifyElems xs).length + 1
  | [] => by decide
  | x :: xs => by
    have h1 : elemsSize (x :: xs) = 1 + max (jsonSize x) (elemsSize xs) := rfl
    have h2 := jsonSize_le_length x
    have h3 := elemsSize_le_length xs
    cases xs with
    | nil =>
      have h4 : stringifyElems [x] = jsonStringify x ++ [']'] := by
        unfold stringifyElems
        rfl
      rw [h1, h4, List.length_append]
      have h5 : elemsSize ([] : List Json) = 1 := rfl
      simp only [List.length_cons, List.length_nil]
      omega
    | cons x2 xs2 =>
      have h4 : stringifyElems (x :: x2 :: xs2) =
          jsonStringify x ++ ',' :: stringifyElems (x2 :: xs2) := by
        unfold stringifyElems
        rfl
      rw [h1, h4, List.length_append, List.length_cons]
      omega

theorem membersSize_le_length :
    ∀ kvs : List (String × Json), membersSize kvs ≤ (stringifyMembers kvs).length + 1
  | [] => by decide
  | (k, v) :: kvs => by
    have h1 : membersSize ((k, v) :: kvs) = 1 + max (jsonSize v) (membersSize kvs) :=
      rfl
    have h2 := jsonSize_le_length v
    have h3 := membersSize_le_length kvs
    cases kvs with
    | nil =>
      have h4 : stringifyMembers [(k, v)] =
          strLit k ++ ':' :: jsonStringify v ++ ['}'] := by
        unfold stringifyMembers
        rfl
      rw [h1, h4]
      have h5 : membersSize ([] : List (String × Json)) = 1 := rfl
      simp only [List.length_append, List.length_cons, List.length_nil]
      omega
    | cons p2 tl2 =>
      have h4 : stringifyMembers ((k, v) :: p2 :: tl2) =
          strLit k ++ ':' :: jsonStringify v ++ ',' :: stringifyMembers (p2 :: tl2) := by
        unfold stringifyMembers
        rfl
      rw [h1, h4]
      simp only [List.length_append, List.length_cons]
      omega

end

/-- `JSON.parse` recovers any serialised value, viewed through an
admissible character expansion of the serialised text. -/
theorem jsonParse_stringify_expand {f : Char → List Char} (hf : GoodExpansion f)
    (v : Json) :
    jsonParse (String.mk ((jsonStringify v).flatMap f)) = some (jsonMapStr f v) := by
  unfold jsonParse
  have hfuel : jsonSize v ≤ ((jsonStringify v).flatMap f).length + 1 := by
    have h1 := jsonSize_le_length v
    have h2 := expand_length_ge hf (jsonStringify v)
    omega
  have h := stringify_parse_value hf v (((jsonStringify v).flatMap f).length + 1) []
    hfuel trivial
  rw [List.append_nil] at h
  rw [show (String.mk ((jsonStringify v).flatMap f)).data =
    (jsonStringify v).flatMap f from rfl]
  rw [h]
  rfl

theorem flatMap_pure (l : List Char) : l.flatMap (fun c => [c]) = l := by
  induction l with
  | nil => rfl
  | cons c r ih =>
    rw [List.flatMap_cons, ih]
    rfl

/-- `JSON.parse ∘ JSON.stringify` is the identity on the JSON model. -/
theorem jsonParse_stringify (v : Json) :
    jsonParse (String.mk (jsonStringify v)) = some v := by
  have h := jsonParse_stringify_expand goodExpansion_id v
  rw [flatMap_pure, jsonMapStr_id] at h
  exact h

/-! ## jwsDecode and decode (src/utils/base64-url-parse.ts, src/decode.ts) -/

/-- `token.split('.')` (JS splits at every dot, keeping empty pieces). -/
def splitDots : List Char → List (List Char)
  | [] => [[]]
  | '.' :: r => [] :: splitDots r
  | c :: r =>
    match splitDots r with
    | [] => [[c]]
    | p :: ps => (c :: p) :: ps

/-- The `JWS_REGEX` shape test: three dot-separated segments of
`[a-zA-Z0-9\-_]`, the first two nonempty. -/
def jwsShape (l : List Char) : Bool :=
  match splitDots l with
  | [a, b, c] =>
    a ≠ [] ∧ a.all isB64UrlChar ∧ b ≠ [] ∧ b.all isB64UrlChar ∧ c.all isB64UrlChar
  | _ => false

/-- `headerFromJWS`: base64-decode the first segment with
`Buffer.toString('binary')` (latin-1) and JSON-parse it (`safeJsonParse`
returns `undefined`, i.e. `none`, on failure). -/
def headerJsonOfSeg (a : List Char) : Option Json :=
  jsonParse (String.mk (latin1OfBytes (nodeB64Decode (String.mk a))))

/-- Property access on an arbitrary JSON value (undefined off objects). -/
def jsProp : Json → String → Option Json
  | .obj kvs, k => jsGet kvs k
  | _, _ => none

/-- The decoded triple of `jwsDecode`. -/
structure Jws where
  header : Json
  payload : Sum String Json
  signature : String

/-- `jwsDecode(token, opts)`: `.error ()` models the uncaught `JSON.parse`
exception on a payload that is not JSON while the header's `typ` is
`"JWT"` (or `opts.json` is set); `.ok none` models the `null` returns. -/
def jwsDecodeModel (token : String) (json : Bool) : Except Unit (Option Jws) :=
  let l := token.data
  if ¬ jwsShape l then .ok none
  else
    match splitDots l with
    | [a, b, c] =>
      match headerJsonOfSeg a with
      | none => .ok none
      | some hj =>
        if ¬ jsTruthy hj then .ok none
        else
          let pstr := String.mk (utf8DecodeLossy (nodeB64Decode (String.mk b)))
          let isJwtTyp : Bool :=
            match jsProp hj "typ" with
            | some (Json.str s) => s = "JWT"
            | _ => false
          if isJwtTyp ∨ json then
            match jsonParse pstr with
            | none => .error ()
            | some pj => .ok (some ⟨hj, .inr pj, String.mk c⟩)
          else .ok (some ⟨hj, .inl pstr, String.mk c⟩)
    | _ => .ok none

/-- Is a parsed value a non-null JS object (`obj !== null && typeof obj
=== 'object'`)? -/
def isObjLike : Json → Bool
  | .obj _ => true
  | .arr _ => true
  | _ => false

/-- What `decode` returns: the payload, or the complete triple. -/
inductive DecodeRet where
  | payload : Sum String Json → DecodeRet
  | complete : Jws → DecodeRet

/-- `decode(token, options)` (src/decode.ts): `jwsDecode`, then the
fallback `JSON.parse` of a string payload (kept only when it yields an
object), then the `complete` selection. -/
def decodeModel (token : String) (complete json : Bool) :
    Except Unit (Option DecodeRet) :=
  match jwsDecodeModel token json with
  | .error e => .error e
  | .ok none => .ok none
  | .ok (some jws) =>
    let payload : Sum String Json :=
      match jws.payload with
      | .inl s =>
        match jsonParse s with
        | some j => if isObjLike j then .inr j else .inl s
        | none => .inl s
      | .inr j => .inr j
    if complete then .ok (some (.complete ⟨jws.header, payload, jws.signature⟩))
    else .ok (some (.payload payload))

/-! ## verify (src/verify.ts) -/

/-- Modelled from the spec: the algorithm registry of
`src/utils/algorithms.ts` is not under `src/`; §2 describes it as mapping
each concrete signing algorithm name to its WebCrypto specification, so the
nine real algorithms are present (`"none"` has no WebCrypto spec). -/
def algorithmsHas (s : String) : Bool :=
  s = "HS256" ∨ s = "HS384" ∨ s = "HS512" ∨ s = "RS256" ∨ s = "RS384" ∨
  s = "RS512" ∨ s = "ES256" ∨ s = "ES384" ∨ s = "ES512"

/-- The failure modes of `verify` (each `throw` site in src/verify.ts).
`parseError`, `notYetValid` and `tokenExpired` name the `AuthTokenError`
messages thrown when `options.throwError` is set. -/
inductive VerifyErr where
  | authTokenInvalid : VerifyErr
  | secretType : VerifyErr
  | algType : VerifyErr
  | tokenStructure : VerifyErr
  | algorithmNotFound : VerifyErr
  | destructureNull : VerifyErr
  | payloadParseThrow : VerifyErr
  | malformedSignature : VerifyErr
  | parseError : VerifyErr
  | notYetValid : VerifyErr
  | tokenExpired : VerifyErr
  deriving Repr, DecidableEq

/-- The `payload.nbf && payload.nbf > now` test (numeric claims). -/
def nbfViolated (p : Json) (now : Int) : Bool :=
  match jsProp p "nbf" with
  | some (Json.num n) => n ≠ 0 ∧ n > now
  | _ => false

/-- The `payload.exp && payload.exp <= now` test (numeric claims). -/
def expViolated (p : Json) (now : Int) : Bool :=
  match jsProp p "exp" with
  | some (Json.num n) => n ≠ 0 ∧ n ≤ now
  | _ => false

/-- `verify(token, secret, options)` (src/verify.ts, options already
normalised to an algorithm value and `throwError` flag).  `.ok none`
models the `false` sentinel; `.ok (some p)` returns the payload variable.

Line 65 of the source is `const { payload } = decode(token)`: `decode`
already returns the payload itself, so this binds the `"payload"`
PROPERTY of the decoded claims object (`undefined` for ordinary tokens)
and throws a `TypeError` when `decode` returns `null`
(`.destructureNull`).  The `nbf`/`exp` comparisons are modelled for
numeric claims (JS string-to-number coercion on a non-numeric claim is
not modelled); `oracle` stands for `crypto.subtle.verify`. -/
def verifyModel (token secret algV : JsValue) (throwErr : Bool)
    (oracle : List Nat → String → Bool) (now : Int) :
    Except VerifyErr (Option Json) :=
  if typeofJs token ≠ "string" then .error .authTokenInvalid
  else if typeofJs secret ≠ "string" ∧ typeofJs secret ≠ "object" then
    .error .secretType
  else if typeofJs algV ≠ "string" then .error .algType
  else
    match token, algV with
    | .str s, .str algStr =>
      let parts := splitDots s.data
      if parts.length ≠ 3 then .error .tokenStructure
      else if ¬ algorithmsHas algStr then .error .algorithmNotFound
      else
        match decodeModel s false false with
        | .error _ => .error .payloadParseThrow
        | .ok none => .error .destructureNull
        | .ok (some ret) =>
          let payloadProp : Option Json :=
            match ret with
            | .payload (.inr (Json.obj kvs)) => jsGet kvs "payload"
            | _ => none
          match payloadProp with
          | none => if throwErr then .error .parseError else .ok none
          | some p =>
            if ¬ jsTruthy p then
              if throwErr then .error .parseError else .ok none
            else if nbfViolated p now then
              if throwErr then .error .notYetValid else .ok none
            else if expViolated p now then
              if throwErr then .error .tokenExpired else .ok none
            else
              match base64UrlParse (String.mk (parts.getD 2 [])) with
              | none => .error .malformedSignature
              | some sigBytes =>
                if oracle sigBytes
                    (String.mk (parts.getD 0 []) ++ "." ++
                      String.mk (parts.getD 1 [])) then
                  .ok (some p)
                else .ok none
    | _, _ => .error .authTokenInvalid

/-! ## sign (src/sign.ts, lines 125-330) -/

/-- `SUPPORTED_ALGS` of src/sign.ts. -/
def SUPPORTED_ALGS : List String :=
  ["ES256", "ES384", "ES512", "HS256", "HS384", "HS512", "RS256", "RS384",
   "RS512", "none"]

/-- Sign options, with the fields of `JwtSignOptions` at their TypeScript
types (absent fields are `none`). -/
structure SignOptions where
  algorithm : Option String := none
  keyid : Option String := none
  expiresIn : Option (Sum Int String) := none
  notBefore : Option (Sum Int String) := none
  audience : Option (Sum String (List String)) := none
  subject : Option String := none
  issuer : Option String := none
  jwtid : Option String := none
  mutatePayload : Option Bool := none
  noTimestamp : Option Bool := none
  header : Option (List (String × Json)) := none

/-- The failure modes of `sign` (the `failure(...)` sites, minus the ones a
typed caller cannot reach). -/
inductive SignErr where
  | secretRequired : SignErr
  | schemaViolation : String → SignErr
  | invalidOptionForString : SignErr
  | claimConflict : String → SignErr
  | invalidTimespan : String → SignErr
  | algorithmNotFound : SignErr
  deriving Repr, DecidableEq

/-- `validatePayload`: the registered-claims schema requires `iat`, `exp`
and `nbf` to be numbers when present; unknown claims are allowed.  Checked
in the payload's own key order, as `Object.keys` iterates. -/
def isNumJson : Json → Bool
  | .num _ => true
  | _ => false

/-- First registered claim with a non-numeric value, in payload key order. -/
def firstBadClaim (p : List (String × Json)) : Option String :=
  p.findSome? (fun kv =>
    if (kv.1 = "iat" ∨ kv.1 = "exp" ∨ kv.1 = "nbf") ∧ ¬ isNumJson kv.2 then
      some kv.1
    else none)

/-- `options_for_objects`: is any object-payload-only option set? -/
def anyObjectOption (o : SignOptions) : Bool :=
  o.expiresIn.isSome ∨ o.notBefore.isSome ∨ o.noTimestamp.isSome ∨
  o.audience.isSome ∨ o.issuer.isSome ∨ o.subject.isSome ∨ o.jwtid.isSome

/-- `validateOptions` over the defaulted options (the spread
`{algorithm: 'HS256', ...options}` puts `algorithm` first in key order);
`expiresIn`/`notBefore` must be numbers or nonempty strings; the
remaining fields are well-typed by construction. -/
def validateOptions (effAlg : String) (o : SignOptions) : Option SignErr :=
  if ¬ (effAlg ∈ SUPPORTED_ALGS) then
    some (.schemaViolation "algorithm must be a valid string enum value")
  else if o.expiresIn = some (.inr "") then
    some (.schemaViolation
      "expiresIn should be a number of seconds or string representing a timespan")
  else if o.notBefore = some (.inr "") then
    some (.schemaViolation
      "notBefore should be a number of seconds or string representing a timespan")
  else none

/-- `const timestamp = payload['iat'] || Math.floor(Date.now() / 1000)`:
JS truthiness makes `iat = 0` fall back to the current time.  `sign` only
reaches this line after `validatePayload`, so a present `iat` is numeric. -/
def computeTimestamp (iat : Option Json) (now : Int) : Int :=
  match iat with
  | some (Json.num n) => if n = 0 then now else n
  | _ => now

/-- `timespan(time, iat)` from src/utils (the file also carries the
`utf8ToUint8Array` helper): numbers add to the base timestamp, strings go
through the external `ms` parser (`msParse`, in milliseconds) with the
result floored; `timespan` reapplies `iat || now` to its base. -/
def timespan (v : Sum Int String) (iat : Int) (now : Int)
    (msParse : String → Option Int) : Option Int :=
  let ts := if iat = 0 then now else iat
  match v with
  | .inl k => some (ts + k)
  | .inr s => (msParse s).map (fun m => ts + Int.fdiv m 1000)

/-- `setKey` on an `Option Json`-valued header entry list
(`Object.assign` semantics: replace in place or append). -/
def setKeyO : List (String × Option Json) → String → Option Json →
    List (String × Option Json)
  | [], k, v => [(k, v)]
  | (k', v') :: rest, k, v =>
    if k = k' then (k', v) :: rest else (k', v') :: setKeyO rest k v

/-- The header of `sign`: `Object.assign({alg, typ}, options.header)`,
with `typ` the `undefined` entry for a non-object payload. -/
def buildHeader (alg : String) (isObj : Bool)
    (ho : Option (List (String × Json))) : List (String × Option Json) :=
  (ho.getD []).foldl (fun acc kv => setKeyO acc kv.1 (some kv.2))
    [("alg", some (Json.str alg)),
     ("typ", if isObj then some (Json.str "JWT") else none)]

/-- `JSON.stringify` drops `undefined`-valued properties. -/
def headerJson (h : List (String × Option Json)) : Json :=
  Json.obj (h.filterMap (fun kv => kv.2.map (fun v => (kv.1, v))))

/-- Read of a header entry list (last match, as `jsGet`). -/
def hGet : List (String × Option Json) → String → Option (Option Json)
  | [], _ => none
  | (k', v) :: rest, k =>
    match hGet rest k with
    | some w => some w
    | none => if k = k' then some v else none

/-- A JS payload argument: a string or a claims object. -/
def PayloadV := Sum String (List (String × Json))

/-- Claim read on a payload argument (`payload['exp']` is `undefined` on a
string). -/
def getClaim (p : PayloadV) (k : String) : Option Json :=
  match p with
  | .inl _ => none
  | .inr kvs => jsGet kvs k

/-- The `audience` option as the injected `aud` claim. -/
def audJson : Sum String (List String) → Json
  | .inl s => .str s
  | .inr xs => .arr (xs.map Json.str)

/-- Write a claim when the option carries a value (`if (options.x) payload.y
= ...`). -/
def optSet (p : List (String × Json)) (k : String) :
    Option Json → List (String × Json)
  | none => p
  | some v => setKey p k v

/-- The claim-assembly pipeline of `sign` on an object payload (source
lines 197-270): conflict checks, option validation, `iat` stamping,
`nbf`/`exp` from `timespan`, and the `aud`/`iss`/`sub`/`jti` injections,
in source order.  On failure the error is paired with the working object
as mutated so far (observable through `mutatePayload`). -/
def assembleClaims (p0 : List (String × Json)) (o : SignOptions)
    (effAlg : String) (now : Int) (msParse : String → Option Int) :
    Except (SignErr × List (String × Json)) (List (String × Json)) :=
  if (jsGet p0 "exp").isSome ∧ o.expiresIn.isSome then
    .error (.claimConflict "exp", p0)
  else if (jsGet p0 "nbf").isSome ∧ o.notBefore.isSome then
    .error (.claimConflict "nbf", p0)
  else
    match validateOptions effAlg o with
    | some e => .error (e, p0)
    | none =>
      let ts := computeTimestamp (jsGet p0 "iat") now
      let w1 :=
        if o.noTimestamp = some true then deleteKey p0 "iat"
        else setKey p0 "iat" (Json.num ts)
      match (match o.notBefore with
        | none => some w1
        | some v => (timespan v ts now msParse).map
            (fun t => setKey w1 "nbf" (Json.num t))) with
      | none => .error (.invalidTimespan "notBefore", w1)
      | some w2 =>
        match (match o.expiresIn with
          | none => some w2
          | some v => (timespan v ts now msParse).map
              (fun t => setKey w2 "exp" (Json.num t))) with
        | none => .error (.invalidTimespan "expiresIn", w2)
        | some w3 =>
          if o.audience.isSome ∧ (jsGet w3 "aud").isSome then
            .error (.claimConflict "aud", w3)
          else
            let w4 := optSet w3 "aud" (o.audience.map audJson)
            if o.issuer.isSome ∧ (jsGet w4 "iss").isSome then
              .error (.claimConflict "iss", w4)
            else
              let w5 := optSet w4 "iss" (o.issuer.map Json.str)
              if o.subject.isSome ∧ (jsGet w5 "sub").isSome then
                .error (.claimConflict "sub", w5)
              else
                let w6 := optSet w5 "sub" (o.subject.map Json.str)
                if o.jwtid.isSome ∧ (jsGet w6 "jti").isSome then
                  .error (.claimConflict "jti", w6)
                else
                  .ok (optSet w6 "jti" (o.jwtid.map Json.str))

/-- The three-segment token text produced at the end of `sign`. -/
def buildToken (hdr : List (String × Option Json)) (payloadJson : Json)
    (sigBytes : List Nat) : String :=
  base64UrlStringify (utf8Encode (jsonStringify (headerJson hdr))) ++ "." ++
    base64UrlStringify (utf8Encode (jsonStringify payloadJson)) ++ "." ++
    base64UrlStringify sigBytes

/-- `sign(payload, secretOrPrivateKey, options)` (src/sign.ts lines
125-330) without a callback, so every `failure` throws.

The result pairs the outcome (`.ok token` or the thrown error) with the
caller's payload object after the call: when `mutatePayload` is true the
claim assembly writes into the caller's object, otherwise it works on the
`Object.assign({}, payload)` copy.  `now` is `Math.floor(Date.now() /
1000)`, `msParse` the external `ms` timespan parser and `sigBytes` the
bytes `crypto.subtle.sign` returns for this call. -/
def signModel (payload : PayloadV) (secret : JsValue) (options : SignOptions)
    (now : Int) (msParse : String → Option Int) (sigBytes : List Nat) :
    (Except SignErr String) × PayloadV :=
  let effAlg := options.algorithm.getD "HS256"
  let isObj : Bool := match payload with | .inl _ => false | .inr _ => true
  let mutp : Bool := options.mutatePayload = some true
  let hdr := buildHeader effAlg isObj options.header
  if ¬ jsValueTruthy secret ∧ effAlg ≠ "none" then (.error .secretRequired, payload)
  else
    match payload with
    | .inl s =>
      if anyObjectOption options then (.error .invalidOptionForString, payload)
      else
        match validateOptions effAlg options with
        | some e => (.error e, payload)
        | none =>
          if ¬ algorithmsHas effAlg then (.error .algorithmNotFound, payload)
          else (.ok (buildToken hdr (Json.str s) sigBytes), payload)
    | .inr p0 =>
      match firstBadClaim p0 with
      | some k => (.error (.schemaViolation k), payload)
      | none =>
        match assembleClaims p0 options effAlg now msParse with
        | .error (e, w) => (.error e, if mutp then .inr w else .inr p0)
        | .ok w7 =>
          if ¬ algorithmsHas effAlg then
            (.error .algorithmNotFound, if mutp then .inr w7 else .inr p0)
          else
            (.ok (buildToken hdr (Json.obj w7) sigBytes),
              if mutp then .inr w7 else .inr p0)

/-! ## Shared lemmas for the claim theorems -/

theorem mk_data (s : String) : String.mk s.data = s := rfl

theorem splitDots_cons_dot (r : List Char) :
    splitDots ('.' :: r) = [] :: splitDots r := rfl

theorem splitDots_cons_ne {c : Char} (h : c ≠ '.') (r : List Char) :
    splitDots (c :: r) =
      match splitDots r with
      | [] => [[c]]
      | p :: ps => (c :: p) :: ps := by
  rw [splitDots.eq_def]
  split
  · rename_i heq
    exact absurd heq (by simp)
  · rename_i r2 heq
    exact absurd (List.cons.inj heq).1 h
  · rename_i x c2 r2 heq
    obtain ⟨rfl, rfl⟩ := List.cons.inj heq
    rfl

theorem splitDots_ne_nil (l : List Char) : splitDots l ≠ [] := by
  induction l with
  | nil => simp [splitDots]
  | cons c r ih =>
    by_cases h : c = '.'
    · subst h
      simp [splitDots_cons_dot]
    · rw [splitDots_cons_ne h]
      cases hs : splitDots r <;> simp

theorem splitDots_no_dot {a : List Char} (h : '.' ∉ a) : splitDots a = [a] := by
  induction a with
  | nil => rfl
  | cons c r ih =>
    simp only [List.mem_cons, not_or] at h
    rw [splitDots_cons_ne (fun he => h.1 he.symm), ih h.2]

theorem splitDots_dot_append {a : List Char} (r : List Char) (h : '.' ∉ a) :
    splitDots (a ++ '.' :: r) = a :: splitDots r := by
  induction a with
  | nil => simp [splitDots_cons_dot]
  | cons c tl ih =>
    simp only [List.mem_cons, not_or] at h
    rw [List.cons_append, splitDots_cons_ne (fun he => h.1 he.symm), ih h.2]

theorem splitDots_three {a b c : List Char} (ha : '.' ∉ a) (hb : '.' ∉ b)
    (hc : '.' ∉ c) : splitDots (a ++ '.' :: (b ++ '.' :: c)) = [a, b, c] := by
  rw [splitDots_dot_append _ ha, splitDots_dot_append _ hb, splitDots_no_dot hc]

theorem stringify_ne_nil (v : Json) : jsonStringify v ≠ [] := by
  obtain ⟨c, l2, he, -⟩ := stringify_head v
  simp [he]

theorem buildToken_data (hdr : List (String × Option Json)) (pj : Json)
    (sigBytes : List Nat) :
    (buildToken hdr pj sigBytes).data =
      (base64UrlStringify (utf8Encode (jsonStringify (headerJson hdr)))).data ++
        '.' :: ((base64UrlStringify (utf8Encode (jsonStringify pj))).data ++
          '.' :: (base64UrlStringify sigBytes).data) := by
  show ((base64UrlStringify (utf8Encode (jsonStringify (headerJson hdr))) ++ "." ++
      base64UrlStringify (utf8Encode (jsonStringify pj)) ++ "." ++
      base64UrlStringify sigBytes) : String).data = _
  simp [String.data_append]

theorem no_dot_of_b64url {l : List Char} (h : ∀ c ∈ l, isB64UrlChar c) :
    '.' ∉ l := fun hm => isB64UrlChar_ne_dot (h '.' hm) rfl

theorem jsTruthy_mapStr_headerJson (f : Char → List Char)
    (hdr : List (String × Option Json)) :
    jsTruthy (jsonMapStr f (headerJson hdr)) = true := by
  rw [headerJson]
  rfl

/-- A token assembled by `sign` from an object payload decodes back to that
payload object: the payload segment survives either branch of `jwsDecode`
(`typ`-triggered JSON parse, or the string fallback in `decode`). -/
theorem decode_of_built_token (hdr : List (String × Option Json))
    (w : List (String × Json)) (sigBytes : List Nat)
    (hsig : ∀ b ∈ sigBytes, b < 256) :
    decodeModel (buildToken hdr (Json.obj w) sigBytes) false false =
      Except.ok (some (DecodeRet.payload (Sum.inr (Json.obj w)))) := by
  have hHbytes := utf8Encode_lt_256 (jsonStringify (headerJson hdr))
  have hPbytes := utf8Encode_lt_256 (jsonStringify (Json.obj w))
  have hAc := base64UrlStringify_chars _ hHbytes
  have hBc := base64UrlStringify_chars _ hPbytes
  have hCc := base64UrlStringify_chars _ hsig
  have hAne : (base64UrlStringify (utf8Encode (jsonStringify (headerJson hdr)))).data ≠ [] :=
    base64UrlStringify_ne_nil _ hHbytes (utf8Encode_ne_nil (stringify_ne_nil _))
  have hBne : (base64UrlStringify (utf8Encode (jsonStringify (Json.obj w)))).data ≠ [] :=
    base64UrlStringify_ne_nil _ hPbytes (utf8Encode_ne_nil (stringify_ne_nil _))
  have hsplit : splitDots (buildToken hdr (Json.obj w) sigBytes).data =
      [(base64UrlStringify (utf8Encode (jsonStringify (headerJson hdr)))).data,
       (base64UrlStringify (utf8Encode (jsonStringify (Json.obj w)))).data,
       (base64UrlStringify sigBytes).data] := by
    rw [buildToken_data]
    exact splitDots_three (no_dot_of_b64url hAc) (no_dot_of_b64url hBc)
      (no_dot_of_b64url hCc)
  have hshape : jwsShape (buildToken hdr (Json.obj w) sigBytes).data = true := by
    unfold jwsShape
    rw [hsplit]
    exact decide_eq_true ⟨hAne, List.all_eq_true.mpr hAc, hBne,
      List.all_eq_true.mpr hBc, List.all_eq_true.mpr hCc⟩
  have hhdr : headerJsonOfSeg
      (base64UrlStringify (utf8Encode (jsonStringify (headerJson hdr)))).data =
      some (jsonMapStr utf8AsLatin1 (headerJson hdr)) := by
    rw [headerJsonOfSeg, mk_data, nodeB64Decode_stringify _ hHbytes,
      latin1OfBytes_utf8Encode]
    exact jsonParse_stringify_expand goodExpansion_latin1 _
  have hpstr : String.mk (utf8DecodeLossy (nodeB64Decode (String.mk
      (base64UrlStringify (utf8Encode (jsonStringify (Json.obj w)))).data))) =
      String.mk (jsonStringify (Json.obj w)) := by
    rw [mk_data, nodeB64Decode_stringify _ hPbytes, utf8DecodeLossy_encode]
  unfold decodeModel jwsDecodeModel
  simp only [hshape, hsplit, hhdr, hpstr, jsTruthy_mapStr_headerJson,
    Bool.not_true, if_false, not_true, Bool.false_eq_true, or_false,
    eq_self_iff_true, not_true_eq_false, ite_false]
  rw [jsonParse_stringify]
  simp only []
  split
  · rename_i e heq
    split at heq <;> simp at heq
  · rename_i heq
    split at heq <;> simp at heq
  · rename_i jws heq
    split at heq
    · rw [Except.ok.injEq, Option.some.injEq] at heq
      subst heq
      rfl
    · rw [Except.ok.injEq, Option.some.injEq] at heq
      subst heq
      simp only [jsonParse_stringify, isObjLike, ite_true, ite_false]

theorem optSet_none (p : List (String × Json)) (k : String) :
    optSet p k none = p := rfl

theorem jsGet_optSet_ne (p : List (String × Json)) (k : String)
    (j : Option Json) {k2 : String} (hne : k2 ≠ k) :
    jsGet (optSet p k j) k2 = jsGet p k2 := by
  cases j with
  | none => rfl
  | some v => exact jsGet_setKey_ne p v hne

theorem jsGet_optSet_self {p : List (String × Json)} (k : String) {v : Json}
    {j : Option Json} (hnd : (p.map Prod.fst).Nodup) (h : j = some v) :
    jsGet (optSet p k j) k = some v := by
  subst h
  exact jsGet_setKey_self k v hnd

theorem optSet_nodup {p : List (String × Json)} (k : String) (j : Option Json)
    (hnd : (p.map Prod.fst).Nodup) :
    ((optSet p k j).map Prod.fst).Nodup := by
  cases j with
  | none => exact hnd
  | some v => exact setKey_keys_nodup hnd

/-- Success characterization of the claim-assembly pipeline: with a
duplicate-free payload and `noTimestamp` unset, the produced object carries
the stamped `iat`, the `timespan`-derived `nbf`/`exp`, the option-injected
`aud`/`iss`/`sub`/`jti`, and is otherwise unchanged. -/
theorem assembleClaims_ok_get {p0 : List (String × Json)} {o : SignOptions}
    {effAlg : String} {now : Int} {msParse : String → Option Int}
    {w : List (String × Json)}
    (hnd : (p0.map Prod.fst).Nodup) (hnt : o.noTimestamp ≠ some true)
    (hok : assembleClaims p0 o effAlg now msParse = .ok w) :
    jsGet w "iat" =
        some (Json.num (computeTimestamp (jsGet p0 "iat") now)) ∧
    (∀ v, o.notBefore = some v → ∃ t,
        timespan v (computeTimestamp (jsGet p0 "iat") now) now msParse =
          some t ∧ jsGet w "nbf" = some (Json.num t)) ∧
    (o.notBefore = none → jsGet w "nbf" = jsGet p0 "nbf") ∧
    (∀ v, o.expiresIn = some v → ∃ t,
        timespan v (computeTimestamp (jsGet p0 "iat") now) now msParse =
          some t ∧ jsGet w "exp" = some (Json.num t)) ∧
    (o.expiresIn = none → jsGet w "exp" = jsGet p0 "exp") ∧
    (∀ a, o.audience = some a → jsGet w "aud" = some (audJson a)) ∧
    (o.audience = none → jsGet w "aud" = jsGet p0 "aud") ∧
    (∀ i, o.issuer = some i → jsGet w "iss" = some (Json.str i)) ∧
    (o.issuer = none → jsGet w "iss" = jsGet p0 "iss") ∧
    (∀ i, o.subject = some i → jsGet w "sub" = some (Json.str i)) ∧
    (o.subject = none → jsGet w "sub" = jsGet p0 "sub") ∧
    (∀ i, o.jwtid = some i → jsGet w "jti" = some (Json.str i)) ∧
    (o.jwtid = none → jsGet w "jti" = jsGet p0 "jti") ∧
    (∀ k, k ≠ "iat" → k ≠ "nbf" → k ≠ "exp" → k ≠ "aud" → k ≠ "iss" →
      k ≠ "sub" → k ≠ "jti" → jsGet w k = jsGet p0 k) := by
  unfold assembleClaims at hok
  split at hok
  · exact absurd hok (by simp)
  split at hok
  · exact absurd hok (by simp)
  split at hok
  · exact absurd hok (by simp)
  simp only [if_neg hnt] at hok
  split at hok
  · exact absurd hok (by simp)
  rename_i w2 hM2
  split at hok
  · exact absurd hok (by simp)
  rename_i w3 hM3
  split at hok
  · exact absurd hok (by simp)
  split at hok
  · exact absurd hok (by simp)
  split at hok
  · exact absurd hok (by simp)
  split at hok
  · exact absurd hok (by simp)
  rw [Except.ok.injEq] at hok
  subst hok
  have nd1 : ((setKey p0 "iat"
      (Json.num (computeTimestamp (jsGet p0 "iat") now))).map Prod.fst).Nodup :=
    setKey_keys_nodup hnd
  have F2 : ((w2.map Prod.fst).Nodup) ∧
      jsGet w2 "iat" = some (Json.num (computeTimestamp (jsGet p0 "iat") now)) ∧
      (∀ v, o.notBefore = some v → ∃ t,
        timespan v (computeTimestamp (jsGet p0 "iat") now) now msParse =
          some t ∧ jsGet w2 "nbf" = some (Json.num t)) ∧
      (o.notBefore = none → jsGet w2 "nbf" = jsGet p0 "nbf") ∧
      (∀ k, k ≠ "iat" → k ≠ "nbf" → jsGet w2 k = jsGet p0 k) := by
    cases honb : o.notBefore with
    | none =>
      rw [honb] at hM2
      have h2 : setKey p0 "iat"
          (Json.num (computeTimestamp (jsGet p0 "iat") now)) = w2 :=
        Option.some.inj hM2
      subst h2
      refine ⟨nd1, jsGet_setKey_self _ _ hnd, ?_, ?_, ?_⟩
      · intro v hv
        exact absurd hv (by simp)
      · intro _
        exact jsGet_setKey_ne _ _ (by decide)
      · intro k hkiat _
        exact jsGet_setKey_ne _ _ hkiat
    | some v0 =>
      rw [honb] at hM2
      have h2 : ((timespan v0 (computeTimestamp (jsGet p0 "iat") now) now
          msParse).map (fun t => setKey (setKey p0 "iat"
            (Json.num (computeTimestamp (jsGet p0 "iat") now))) "nbf"
            (Json.num t))) = some w2 := hM2
      rw [Option.map_eq_some'] at h2
      obtain ⟨t, hts, hw2⟩ := h2
      subst hw2
      refine ⟨setKey_keys_nodup nd1, ?_, ?_, ?_, ?_⟩
      · rw [jsGet_setKey_ne _ _ (by decide)]
        exact jsGet_setKey_self _ _ hnd
      · intro v hv
        obtain rfl := Option.some.inj hv
        exact ⟨t, hts, jsGet_setKey_self _ _ nd1⟩
      · intro h0
        exact absurd h0 (by simp)
      · intro k hkiat hknbf
        rw [jsGet_setKey_ne _ _ hknbf, jsGet_setKey_ne _ _ hkiat]
  obtain ⟨nd2, g2iat, g2nbfS, g2nbfN, g2fr⟩ := F2
  have F3 : ((w3.map Prod.fst).Nodup) ∧
      jsGet w3 "iat" = some (Json.num (computeTimestamp (jsGet p0 "iat") now)) ∧
      (∀ v, o.notBefore = some v → ∃ t,
        timespan v (computeTimestamp (jsGet p0 "iat") now) now msParse =
          some t ∧ jsGet w3 "nbf" = some (Json.num t)) ∧
      (o.notBefore = none → jsGet w3 "nbf" = jsGet p0 "nbf") ∧
      (∀ v, o.expiresIn = some v → ∃ t,
        timespan v (computeTimestamp (jsGet p0 "iat") now) now msParse =
          some t ∧ jsGet w3 "exp" = some (Json.num t)) ∧
      (o.expiresIn = none → jsGet w3 "exp" = jsGet p0 "exp") ∧
      (∀ k, k ≠ "iat" → k ≠ "nbf" → k ≠ "exp" → jsGet w3 k = jsGet p0 k) := by
    cases hoe : o.expiresIn with
    | none =>
      rw [hoe] at hM3
      have h3 : w2 = w3 := Option.some.inj hM3
      subst h3
      refine ⟨nd2, g2iat, g2nbfS, g2nbfN, ?_, ?_, ?_⟩
      · intro v hv
        exact absurd hv (by simp)
      · intro _
        exact g2fr "exp" (by decide) (by decide)
      · intro k hkiat hknbf _
        exact g2fr k hkiat hknbf
    | some v0 =>
      rw [hoe] at hM3
      have h3 : ((timespan v0 (computeTimestamp (jsGet p0 "iat") now) now
          msParse).map (fun t => setKey w2 "exp" (Json.num t))) = some w3 := hM3
      rw [Option.map_eq_some'] at h3
      obtain ⟨t, hts, hw3⟩ := h3
      subst hw3
      refine ⟨setKey_keys_nodup nd2, ?_, ?_, ?_, ?_, ?_, ?_⟩
      · rw [jsGet_setKey_ne _ _ (by decide)]
        exact g2iat
      · intro v hv
        obtain ⟨t2, hts2, hg⟩ := g2nbfS v hv
        refine ⟨t2, hts2, ?_⟩
        rw [jsGet_setKey_ne _ _ (by decide)]
        exact hg
      · intro h0
        rw [jsGet_setKey_ne _ _ (by decide)]
        exact g2nbfN h0
      · intro v hv
        obtain rfl := Option.some.inj hv
        exact ⟨t, hts, jsGet_setKey_self _ _ nd2⟩
      · intro h0
        exact absurd h0 (by simp)
      · intro k hkiat hknbf hkexp
        rw [jsGet_setKey_ne _ _ hkexp]
        exact g2fr k hkiat hknbf
  obtain ⟨nd3, g3iat, g3nbfS, g3nbfN, g3expS, g3expN, g3fr⟩ := F3
  have nd4 := optSet_nodup "aud" (o.audience.map audJson) nd3
  have nd5 := optSet_nodup "iss" (o.issuer.map Json.str) nd4
  have nd6 := optSet_nodup "sub" (o.subject.map Json.str) nd5
  have gtail : ∀ k : String, k ≠ "aud" → k ≠ "iss" → k ≠ "sub" → k ≠ "jti" →
      jsGet (optSet (optSet (optSet (optSet w3 "aud" (o.audience.map audJson))
          "iss" (o.issuer.map Json.str)) "sub" (o.subject.map Json.str))
          "jti" (o.jwtid.map Json.str)) k = jsGet w3 k := by
    intro k h1 h2 h3 h4
    rw [jsGet_optSet_ne _ _ _ h4, jsGet_optSet_ne _ _ _ h3,
      jsGet_optSet_ne _ _ _ h2, jsGet_optSet_ne _ _ _ h1]
  refine ⟨?_, ?_, ?_, ?_, ?_, ?_, ?_, ?_, ?_, ?_, ?_, ?_, ?_, ?_⟩
  · rw [gtail "iat" (by decide) (by decide) (by decide) (by decide)]
    exact g3iat
  · intro v hv
    obtain ⟨t, hts, hg⟩ := g3nbfS v hv
    refine ⟨t, hts, ?_⟩
    rw [gtail "nbf" (by decide) (by decide) (by decide) (by decide)]
    exact hg
  · intro h0
    rw [gtail "nbf" (by decide) (by decide) (by decide) (by decide)]
    exact g3nbfN h0
  · intro v hv
    obtain ⟨t, hts, hg⟩ := g3expS v hv
    refine ⟨t, hts, ?_⟩
    rw [gtail "exp" (by decide) (by decide) (by decide) (by decide)]
    exact hg
  · intro h0
    rw [gtail "exp" (by decide) (by decide) (by decide) (by decide)]
    exact g3expN h0
  · intro a ha
    rw [jsGet_optSet_ne _ _ _ (show ("aud" : String) ≠ "jti" from by decide),
      jsGet_optSet_ne _ _ _ (show ("aud" : String) ≠ "sub" from by decide),
      jsGet_optSet_ne _ _ _ (show ("aud" : String) ≠ "iss" from by decide)]
    exact jsGet_optSet_self _ nd3 (by rw [ha]; rfl)
  · intro h0
    rw [jsGet_optSet_ne _ _ _ (show ("aud" : String) ≠ "jti" from by decide),
      jsGet_optSet_ne _ _ _ (show ("aud" : String) ≠ "sub" from by decide),
      jsGet_optSet_ne _ _ _ (show ("aud" : String) ≠ "iss" from by decide),
      h0, Option.map_none', optSet_none]
    exact g3fr "aud" (by decide) (by decide) (by decide)
  · intro i hi
    rw [jsGet_optSet_ne _ _ _ (show ("iss" : String) ≠ "jti" from by decide),
      jsGet_optSet_ne _ _ _ (show ("iss" : String) ≠ "sub" from by decide)]
    exact jsGet_optSet_self _ nd4 (by rw [hi]; rfl)
  · intro h0
    rw [jsGet_optSet_ne _ _ _ (show ("iss" : String) ≠ "jti" from by decide),
      jsGet_optSet_ne _ _ _ (show ("iss" : String) ≠ "sub" from by decide),
      h0, Option.map_none', optSet_none,
      jsGet_optSet_ne _ _ _ (show ("iss" : String) ≠ "aud" from by decide)]
    exact g3fr "iss" (by decide) (by decide) (by decide)
  · intro i hi
    rw [jsGet_optSet_ne _ _ _ (show ("sub" : String) ≠ "jti" from by decide)]
    exact jsGet_optSet_self _ nd5 (by rw [hi]; rfl)
  · intro h0
    rw [jsGet_optSet_ne _ _ _ (show ("sub" : String) ≠ "jti" from by decide),
      h0, Option.map_none', optSet_none,
      jsGet_optSet_ne _ _ _ (show ("sub" : String) ≠ "iss" from by decide),
      jsGet_optSet_ne _ _ _ (show ("sub" : String) ≠ "aud" from by decide)]
    exact g3fr "sub" (by decide) (by decide) (by decide)
  · intro i hi
    exact jsGet_optSet_self _ nd6 (by rw [hi]; rfl)
  · intro h0
    rw [h0, Option.map_none', optSet_none,
      jsGet_optSet_ne _ _ _ (show ("jti" : String) ≠ "sub" from by decide),
      jsGet_optSet_ne _ _ _ (show ("jti" : String) ≠ "iss" from by decide),
      jsGet_optSet_ne _ _ _ (show ("jti" : String) ≠ "aud" from by decide)]
    exact g3fr "jti" (by decide) (by decide) (by decide)
  · intro k h1 h2 h3 h4 h5 h6 h7
    rw [gtail k h4 h5 h6 h7]
    exact g3fr k h1 h2 h3

/-- Inverting a successful `sign` on an object payload: the claim assembly
succeeded and the token is the three-segment text over its result. -/
theorem signModel_ok_inv {P : List (String × Json)} {secret : JsValue}
    {options : SignOptions} {now : Int} {msParse : String → Option Int}
    {sigBytes : List Nat} {tok : String}
    (hok : (signModel (.inr P) secret options now msParse sigBytes).1 =
      .ok tok) :
    ∃ w7, assembleClaims P options (options.algorithm.getD "HS256") now
        msParse = .ok w7 ∧
      tok = buildToken
        (buildHeader (options.algorithm.getD "HS256") true options.header)
        (Json.obj w7) sigBytes := by
  unfold signModel at hok
  split at hok
  · rename_i val heq
    exact absurd heq (by simp)
  rename_i kvs heq
  obtain rfl : P = kvs := Sum.inr.inj heq
  split at hok
  · simp only [] at hok
    split at hok <;> exact absurd hok (by simp)
  simp only [] at hok
  split at hok
  · exact absurd hok (by simp)
  split at hok
  · exact absurd hok (by simp)
  rename_i w7 hA
  split at hok
  · exact absurd hok (by simp)
  exact ⟨w7, hA, (Except.ok.inj hok).symm⟩

/-- The caller-payload component of `sign`: untouched without
`mutatePayload`, the assembled object with it. -/
theorem signModel_snd_nomut {P : List (String × Json)} {secret : JsValue}
    {options : SignOptions} {now : Int} {msParse : String → Option Int}
    {sigBytes : List Nat} (hm : options.mutatePayload ≠ some true) :
    (signModel (.inr P) secret options now msParse sigBytes).2 = Sum.inr P := by
  have hmf : decide (options.mutatePayload = some true) = false := by
    simp [hm]
  unfold signModel
  simp only [hmf, Bool.false_eq_true, if_false]
  split
  · rfl
  split
  · rfl
  split
  · rfl
  split
  · rfl
  rfl

theorem signModel_ok_snd {P : List (String × Json)} {secret : JsValue}
    {options : SignOptions} {now : Int} {msParse : String → Option Int}
    {sigBytes : List Nat} {tok : String}
    (hm : options.mutatePayload = some true)
    (hok : (signModel (.inr P) secret options now msParse sigBytes).1 =
      .ok tok) :
    ∃ w7, assembleClaims P options (options.algorithm.getD "HS256") now
        msParse = .ok w7 ∧
      (signModel (.inr P) secret options now msParse sigBytes).2 =
        Sum.inr w7 := by
  have hmt : decide (options.mutatePayload = some true) = true := by
    simp [hm]
  obtain ⟨r, hres⟩ : ∃ r, signModel (.inr P) secret options now msParse
      sigBytes = r := ⟨_, rfl⟩
  rw [hres] at hok ⊢
  unfold signModel at hres
  simp only [hmt, if_true] at hres
  split at hres
  · rw [← hres] at hok
    simp at hok
  split at hres
  · rw [← hres] at hok
    simp at hok
  split at hres
  · rename_i pr heq2
    rw [← hres] at hok
    simp at hok
  rename_i w7 hA
  split at hres
  · rw [← hres] at hok
    simp at hok
  rw [← hres]
  exact ⟨w7, hA, rfl⟩

/-! ## decodePayload (src/utils/decode-payload.ts) -/

/-- `decodeURIComponent(escape(x))` on a latin-1 string of bytes: the
strict UTF-8 decode, which throws (`none`) on malformed input.  A byte
list is well-formed UTF-8 exactly when re-encoding its lossy decode
reproduces it (U+FFFD substitution is otherwise visible). -/
def utf8DecodeStrict (bs : List Nat) : Option (List Char) :=
  if utf8Encode (utf8DecodeLossy bs) = bs then some (utf8DecodeLossy bs)
  else none

/-- The `atob` / strict-UTF-8 / `JSON.parse` pipeline of `decodePayload`
after repadding; any failure is caught and becomes `null` (`none`). -/
def decodePayloadBody (s : String) : Option Json :=
  match atobModel s with
  | none => none
  | some bytes =>
    match utf8DecodeStrict bytes with
    | none => none
    | some cs => jsonParse (String.mk cs)

/-- `decodePayload(raw)` (src/utils/decode-payload.ts): repad by
`raw.length % 4` (`2 → "=="`, `3 → "="`), throw `Illegal base64url
string!` on a remainder of 1, then parse inside a `try` that returns
`null` on any error. -/
def decodePayload (raw : String) : Except Unit (Option Json) :=
  if raw.length % 4 = 0 then .ok (decodePayloadBody raw)
  else if raw.length % 4 = 2 then .ok (decodePayloadBody (raw ++ "=="))
  else if raw.length % 4 = 3 then .ok (decodePayloadBody (raw ++ "="))
  else .error ()

theorem hGet_eq_none_of_not_mem {l : List (String × Option Json)} {k : String}
    (h : k ∉ l.map Prod.fst) : hGet l k = none := by
  induction l with
  | nil => rfl
  | cons p rest ih =>
    obtain ⟨k', v'⟩ := p
    simp only [List.map_cons, List.mem_cons, not_or] at h
    simp [hGet, ih h.2, h.1]

theorem setKeyO_map_fst (l : List (String × Option Json)) (k : String)
    (v : Option Json) :
    (setKeyO l k v).map Prod.fst =
      if k ∈ l.map Prod.fst then l.map Prod.fst else l.map Prod.fst ++ [k] := by
  induction l with
  | nil => simp [setKeyO]
  | cons p rest ih =>
    obtain ⟨k', v'⟩ := p
    by_cases h : k = k'
    · simp [setKeyO, h]
    · simp only [setKeyO, if_neg h, List.map_cons, ih, List.mem_cons]
      by_cases hm : k ∈ rest.map Prod.fst <;> simp [hm, h]

theorem setKeyO_keys_nodup {l : List (String × Option Json)} {k : String}
    {v : Option Json} (hnd : (l.map Prod.fst).Nodup) :
    ((setKeyO l k v).map Prod.fst).Nodup := by
  rw [setKeyO_map_fst]
  by_cases hm : k ∈ l.map Prod.fst
  · simpa [hm] using hnd
  · refine (if_neg hm) ▸ List.Nodup.append hnd (List.nodup_singleton k) ?_
    intro a ha hb
    rw [List.mem_singleton] at hb
    subst hb
    exact hm ha

theorem hGet_setKeyO_self {l : List (String × Option Json)} (k : String)
    (v : Option Json) (hnd : (l.map Prod.fst).Nodup) :
    hGet (setKeyO l k v) k = some v := by
  induction l with
  | nil => simp [setKeyO, hGet]
  | cons p rest ih =>
    obtain ⟨k', v'⟩ := p
    simp only [List.map_cons, List.nodup_cons] at hnd
    by_cases h : k = k'
    · subst h
      have hnone : hGet rest k = none := hGet_eq_none_of_not_mem hnd.1
      simp [setKeyO, hGet, hnone]
    · simp [setKeyO, h, hGet, ih hnd.2]

theorem hGet_setKeyO_ne (l : List (String × Option Json)) {k k₂ : String}
    (v : Option Json) (hne : k₂ ≠ k) :
    hGet (setKeyO l k v) k₂ = hGet l k₂ := by
  induction l with
  | nil => simp [setKeyO, hGet, hne]
  | cons p rest ih =>
    obtain ⟨k', v'⟩ := p
    by_cases h : k = k'
    · subst h
      simp [setKeyO, hGet, fun he : k₂ = k => hne he]
    · simp [setKeyO, h, hGet, ih]

/-- `Object.assign` of a header option onto the base header: the last value
of a key in `options.header` wins, anything else reads from the base. -/
theorem hGet_foldl_setKeyO (ho : List (String × Json))
    (acc : List (String × Option Json)) (k : String)
    (hnd : (acc.map Prod.fst).Nodup) :
    hGet (ho.foldl (fun a kv => setKeyO a kv.1 (some kv.2)) acc) k =
      match jsGet ho k with
      | some v => some (some v)
      | none => hGet acc k := by
  induction ho generalizing acc with
  | nil => rfl
  | cons kv rest ih =>
    obtain ⟨k0, v0⟩ := kv
    rw [List.foldl_cons]
    rw [ih _ (setKeyO_keys_nodup hnd)]
    cases hr : jsGet rest k with
    | some v => simp [jsGet, hr]
    | none =>
      by_cases hk : k = k0
      · subst hk
        rw [hGet_setKeyO_self _ _ hnd]
        simp [jsGet, hr]
      · rw [hGet_setKeyO_ne _ _ hk]
        simp [jsGet, hr, hk]

/-! ## Claim theorems -/

/-- C1: for every claims-object payload `P` (duplicate-free keys), secret,
and options with `noTimestamp` unset, decoding the token returned by a
successful `sign(P, S, options)` yields `P` extended with exactly the
injected registered claims — the stamped `iat`, plus `nbf`/`exp` from
`timespan` and `aud`/`iss`/`sub`/`jti` for whichever options were set —
and no other change to `P`'s claims. -/
theorem C1_sign_decode_roundtrip (P : List (String × Json))
    (hnd : (P.map Prod.fst).Nodup) (secret : JsValue) (options : SignOptions)
    (hnt : options.noTimestamp ≠ some true) (now : Int)
    (msParse : String → Option Int) (sigBytes : List Nat)
    (hsig : ∀ b ∈ sigBytes, b < 256) (tok : String)
    (hok : (signModel (.inr P) secret options now msParse sigBytes).1 =
      Except.ok tok) :
    ∃ work : List (String × Json),
      decodeModel tok false false =
        Except.ok (some (DecodeRet.payload (Sum.inr (Json.obj work)))) ∧
      jsGet work "iat" =
        some (Json.num (computeTimestamp (jsGet P "iat") now)) ∧
      (∀ v, options.notBefore = some v → ∃ t,
        timespan v (computeTimestamp (jsGet P "iat") now) now msParse =
          some t ∧ jsGet work "nbf" = some (Json.num t)) ∧
      (options.notBefore = none → jsGet work "nbf" = jsGet P "nbf") ∧
      (∀ v, options.expiresIn = some v → ∃ t,
        timespan v (computeTimestamp (jsGet P "iat") now) now msParse =
          some t ∧ jsGet work "exp" = some (Json.num t)) ∧
      (options.expiresIn = none → jsGet work "exp" = jsGet P "exp") ∧
      (∀ a, options.audience = some a → jsGet work "aud" = some (audJson a)) ∧
      (options.audience = none → jsGet work "aud" = jsGet P "aud") ∧
      (∀ i, options.issuer = some i → jsGet work "iss" = some (Json.str i)) ∧
      (options.issuer = none → jsGet work "iss" = jsGet P "iss") ∧
      (∀ i, options.subject = some i → jsGet work "sub" = some (Json.str i)) ∧
      (options.subject = none → jsGet work "sub" = jsGet P "sub") ∧
      (∀ i, options.jwtid = some i → jsGet work "jti" = some (Json.str i)) ∧
      (options.jwtid = none → jsGet work "jti" = jsGet P "jti") ∧
      (∀ k, k ≠ "iat" → k ≠ "nbf" → k ≠ "exp" → k ≠ "aud" → k ≠ "iss" →
        k ≠ "sub" → k ≠ "jti" → jsGet work k = jsGet P k) := by
  obtain ⟨w7, hA, htok⟩ := signModel_ok_inv hok
  subst htok
  exact ⟨w7, decode_of_built_token _ _ _ hsig, assembleClaims_ok_get hnd hnt hA⟩

/-- Witness for C1 at a concrete signing call: payload `{foo: "bar"}`,
`notBefore = 60`, `expiresIn = 600`, `now = 1000`, signature `[1, 2, 3]`. -/
theorem C1_sign_decode_roundtrip_witness :
    ∃ work : List (String × Json),
      decodeModel (buildToken (buildHeader "HS256" true none)
          (Json.obj [("foo", Json.str "bar"), ("iat", Json.num 1000),
            ("nbf", Json.num 1060), ("exp", Json.num 1600)]) [1, 2, 3])
          false false =
        Except.ok (some (DecodeRet.payload (Sum.inr (Json.obj work)))) ∧
      jsGet work "iat" = some (Json.num 1000) ∧
      (∀ v, (some (Sum.inl 60) : Option (Sum Int String)) = some v → ∃ t,
        timespan v 1000 1000 (fun _ => (none : Option Int)) = some t ∧
        jsGet work "nbf" = some (Json.num t)) ∧
      ((some (Sum.inl 60) : Option (Sum Int String)) = none →
        jsGet work "nbf" = jsGet [("foo", Json.str "bar")] "nbf") ∧
      (∀ v, (some (Sum.inl 600) : Option (Sum Int String)) = some v → ∃ t,
        timespan v 1000 1000 (fun _ => (none : Option Int)) = some t ∧
        jsGet work "exp" = some (Json.num t)) ∧
      ((some (Sum.inl 600) : Option (Sum Int String)) = none →
        jsGet work "exp" = jsGet [("foo", Json.str "bar")] "exp") ∧
      (∀ a, (none : Option (Sum String (List String))) = some a →
        jsGet work "aud" = some (audJson a)) ∧
      ((none : Option (Sum String (List String))) = none →
        jsGet work "aud" = jsGet [("foo", Json.str "bar")] "aud") ∧
      (∀ i, (none : Option String) = some i →
        jsGet work "iss" = some (Json.str i)) ∧
      ((none : Option String) = none →
        jsGet work "iss" = jsGet [("foo", Json.str "bar")] "iss") ∧
      (∀ i, (none : Option String) = some i →
        jsGet work "sub" = some (Json.str i)) ∧
      ((none : Option String) = none →
        jsGet work "sub" = jsGet [("foo", Json.str "bar")] "sub") ∧
      (∀ i, (none : Option String) = some i →
        jsGet work "jti" = some (Json.str i)) ∧
      ((none : Option String) = none →
        jsGet work "jti" = jsGet [("foo", Json.str "bar")] "jti") ∧
      (∀ k, k ≠ "iat" → k ≠ "nbf" → k ≠ "exp" → k ≠ "aud" → k ≠ "iss" →
        k ≠ "sub" → k ≠ "jti" →
        jsGet work k = jsGet [("foo", Json.str "bar")] k) :=
  C1_sign_decode_roundtrip [("foo", Json.str "bar")] (by decide)
    (JsValue.str "secret")
    ⟨none, none, some (Sum.inl 600), some (Sum.inl 60), none, none, none,
      none, none, none, none⟩
    (by decide) 1000 (fun _ => (none : Option Int)) [1, 2, 3] (by decide)
    (buildToken (buildHeader "HS256" true none)
      (Json.obj [("foo", Json.str "bar"), ("iat", Json.num 1000),
        ("nbf", Json.num 1060), ("exp", Json.num 1600)]) [1, 2, 3])
    rfl

/-- C2: `sign` on an object payload leaves the caller's object untouched
whenever `mutatePayload` is unset or false; with `mutatePayload: true` a
successful call leaves the caller's object holding the assembled claims —
the stamped `iat` and the `nbf`/`exp` injected for the options that were
set. -/
theorem C2_mutate_payload_frame (P : List (String × Json)) (secret : JsValue)
    (options : SignOptions) (now : Int) (msParse : String → Option Int)
    (sigBytes : List Nat) :
    (options.mutatePayload ≠ some true →
      (signModel (.inr P) secret options now msParse sigBytes).2 =
        Sum.inr P) ∧
    (options.mutatePayload = some true → (P.map Prod.fst).Nodup →
      options.noTimestamp ≠ some true → ∀ tok,
      (signModel (.inr P) secret options now msParse sigBytes).1 =
        Except.ok tok →
      ∃ work, (signModel (.inr P) secret options now msParse sigBytes).2 =
          Sum.inr work ∧
        jsGet work "iat" =
          some (Json.num (computeTimestamp (jsGet P "iat") now)) ∧
        (∀ v, options.notBefore = some v →
          (jsGet work "nbf").isSome = true) ∧
        (∀ v, options.expiresIn = some v →
          (jsGet work "exp").isSome = true)) := by
  constructor
  · exact fun hm => signModel_snd_nomut hm
  · intro hm hnd hnt tok hok
    obtain ⟨w7, hA, hsnd⟩ := signModel_ok_snd hm hok
    obtain ⟨giat, gnbf, -, gexp, -⟩ := assembleClaims_ok_get hnd hnt hA
    refine ⟨w7, hsnd, giat, ?_, ?_⟩
    · intro v hv
      obtain ⟨t, -, hg⟩ := gnbf v hv
      simp [hg]
    · intro v hv
      obtain ⟨t, -, hg⟩ := gexp v hv
      simp [hg]

/-- C3: with a truthy secret and a payload passing the registered-claims
schema, a payload that already has `exp` together with `options.expiresIn`
set fails with `ClaimConflict` on `exp` (and the `nbf`/`notBefore` pair
likewise, checked second), before any claim is written to the payload. -/
theorem C3_claim_conflicts (P : List (String × Json)) (secret : JsValue)
    (options : SignOptions) (now : Int) (msParse : String → Option Int)
    (sigBytes : List Nat) (hsec : jsValueTruthy secret = true)
    (hschema : firstBadClaim P = none) :
    ((jsGet P "exp").isSome = true → options.expiresIn.isSome = true →
      signModel (.inr P) secret options now msParse sigBytes =
        (Except.error (SignErr.claimConflict "exp"), Sum.inr P)) ∧
    (¬((jsGet P "exp").isSome = true ∧ options.expiresIn.isSome = true) →
      (jsGet P "nbf").isSome = true → options.notBefore.isSome = true →
      signModel (.inr P) secret options now msParse sigBytes =
        (Except.error (SignErr.claimConflict "nbf"), Sum.inr P)) := by
  have hg : ¬(¬ jsValueTruthy secret = true ∧
      options.algorithm.getD "HS256" ≠ "none") := by
    simp [hsec]
  constructor
  · intro hexp he
    have hA : assembleClaims P options (options.algorithm.getD "HS256") now
        msParse = .error (.claimConflict "exp", P) := by
      unfold assembleClaims
      rw [if_pos ⟨hexp, he⟩]
    unfold signModel
    simp only [hschema, hA, if_neg hg, ite_self]
  · intro hnc hnbf hn
    have hA : assembleClaims P options (options.algorithm.getD "HS256") now
        msParse = .error (.claimConflict "nbf", P) := by
      unfold assembleClaims
      rw [if_neg hnc, if_pos ⟨hnbf, hn⟩]
    unfold signModel
    simp only [hschema, hA, if_neg hg, ite_self]

/-- Witness for C3 at a concrete conflicting call: payload `{exp: 5}` with
`expiresIn = 60`. -/
theorem C3_claim_conflicts_witness :
    signModel (.inr [("exp", Json.num 5)]) (JsValue.str "secret")
        ⟨none, none, some (Sum.inl 60), none, none, none, none, none, none,
          none, none⟩ 1000 (fun _ => (none : Option Int)) [] =
      (Except.error (SignErr.claimConflict "exp"),
        Sum.inr [("exp", Json.num 5)]) :=
  (C3_claim_conflicts [("exp", Json.num 5)] (JsValue.str "secret")
    ⟨none, none, some (Sum.inl 60), none, none, none, none, none, none,
      none, none⟩ 1000 (fun _ => (none : Option Int)) [] (by decide)
    (by decide)).1 (by decide) (by decide)

/-- C3 counterexample: `validatePayload` runs before the conflict checks,
so a payload whose existing `exp` is the non-numeric `"boom"` together
with `expiresIn` set fails with the schema error, not `ClaimConflict`. -/
theorem C3_schema_before_conflict :
    (signModel (.inr [("exp", Json.str "boom")]) (JsValue.str "secret")
        ⟨none, none, some (Sum.inl 60), none, none, none, none, none, none,
          none, none⟩ 1000 (fun _ => (none : Option Int)) []).1 =
      Except.error (SignErr.schemaViolation "exp") := rfl

/-- C4 (code bug): a well-formed token whose payload has `nbf = 1060 > now
= 1000` makes `verify` with `throwError` raise `ParseError` instead of
`NotYetValid`: line 65 destructures the `payload` property out of the
payload object `decode` already returned. -/
theorem C4_destructure_bug_eval :
    decodeModel "eyJhbGciOiJIUzI1NiIsInR5cCI6IkpXVCJ9.eyJmb28iOiJiYXIiLCJpYXQiOjEwMDAsIm5iZiI6MTA2MCwiZXhwIjoxNjAwfQ.AQID" false false =
      Except.ok (some (DecodeRet.payload (Sum.inr (Json.obj
        [("foo", Json.str "bar"), ("iat", Json.num 1000),
         ("nbf", Json.num 1060), ("exp", Json.num 1600)])))) ∧
    nbfViolated (Json.obj [("foo", Json.str "bar"), ("iat", Json.num 1000),
      ("nbf", Json.num 1060), ("exp", Json.num 1600)]) 1000 = true ∧
    verifyModel
      (.str "eyJhbGciOiJIUzI1NiIsInR5cCI6IkpXVCJ9.eyJmb28iOiJiYXIiLCJpYXQiOjEwMDAsIm5iZiI6MTA2MCwiZXhwIjoxNjAwfQ.AQID")
      (.str "secret") (.str "HS256") true (fun _ _ => true) 1000 =
      Except.error VerifyErr.parseError :=
  ⟨rfl, rfl, rfl⟩

/-- C5 (amended): each of the four `verify` entry guards — non-string
token, secret neither string nor object, non-string algorithm, token not
in three dot-separated parts — fails immediately with its typed error
before any decoding or cryptographic work; but the failure is a throw for
BOTH values of `throwError` (the guards never return the `false`
sentinel). -/
theorem C5_verify_guards (token secret algV : JsValue) (throwErr : Bool)
    (oracle : List Nat → String → Bool) (now : Int) :
    (typeofJs token ≠ "string" →
      verifyModel token secret algV throwErr oracle now =
        Except.error VerifyErr.authTokenInvalid) ∧
    (typeofJs token = "string" → typeofJs secret ≠ "string" →
      typeofJs secret ≠ "object" →
      verifyModel token secret algV throwErr oracle now =
        Except.error VerifyErr.secretType) ∧
    (typeofJs token = "string" →
      (typeofJs secret = "string" ∨ typeofJs secret = "object") →
      typeofJs algV ≠ "string" →
      verifyModel token secret algV throwErr oracle now =
        Except.error VerifyErr.algType) ∧
    (∀ s a, token = JsValue.str s → algV = JsValue.str a →
      (typeofJs secret = "string" ∨ typeofJs secret = "object") →
      (splitDots s.data).length ≠ 3 →
      verifyModel token secret algV throwErr oracle now =
        Except.error VerifyErr.tokenStructure) := by
  refine ⟨?_, ?_, ?_, ?_⟩
  · intro h
    unfold verifyModel
    rw [if_pos h]
  · intro ht hs1 hs2
    unfold verifyModel
    rw [if_neg (by simp [ht]), if_pos ⟨hs1, hs2⟩]
  · intro ht hs ha
    unfold verifyModel
    rw [if_neg (by simp [ht]),
      if_neg (by rcases hs with h | h <;> simp [h]), if_pos ha]
  · intro s a hts has hs hparts
    subst hts
    subst has
    unfold verifyModel
    rw [if_neg (by simp [typeofJs]),
      if_neg (by rcases hs with h | h <;> simp [h]),
      if_neg (by simp [typeofJs])]
    simp only []
    rw [if_pos hparts]

/-- C5 counterexample: the two-segment token `"a.b"` with `throwError:
false` still raises the structural error instead of returning the `false`
sentinel. -/
theorem C5_guard_ignores_throwError :
    verifyModel (.str "a.b") (.str "secret") (.str "HS256") false
      (fun _ _ => false) 0 = Except.error VerifyErr.tokenStructure := rfl

/-- C6 (amended): `decode` returns `null` when the token fails the
three-segment grammar or its header segment fails to parse as JSON; but it
is NOT a non-throwing parse for every input — see the counterexample. -/
theorem C6_decode_null_on_malformed (token : String) (complete json : Bool)
    (h : jwsShape token.data = false ∨
      ∃ a b c, splitDots token.data = [a, b, c] ∧ headerJsonOfSeg a = none) :
    decodeModel token complete json = Except.ok none := by
  unfold decodeModel jwsDecodeModel
  rcases h with h | ⟨a, b, c, hsplit, hha⟩
  · simp [h]
  · by_cases hsh : jwsShape token.data
    · simp [hsh, hsplit, hha]
    · simp [hsh]

/-- Witness for C6 at the concrete non-matching token `"not-a-token"`. -/
theorem C6_decode_null_on_malformed_witness :
    decodeModel "not-a-token" false false = Except.ok none :=
  C6_decode_null_on_malformed "not-a-token" false false (Or.inl rfl)

/-- C6 counterexample: a structurally valid token whose header has `typ
"JWT"` but whose payload segment (`"QEBA"`, the bytes `"@@@"`) is not
JSON makes `jwsDecode` raise out of `JSON.parse`; `decode` does not catch
it, so `decode` is not a non-throwing parse. -/
theorem C6_decode_throws_on_bad_payload :
    decodeModel "eyJ0eXAiOiJKV1QiLCJhbGciOiJIUzI1NiJ9.QEBA.sig" false false =
      Except.error () := rfl

/-- C7 (amended): `base64UrlParse ∘ base64UrlStringify` is the identity on
byte sequences, and `decodePayload` re-pads its input by length mod 4
(`2 → "=="`, `3 → "="`) and throws on a remainder of 1; but
`base64UrlStringify ∘ base64UrlParse` is NOT the identity on every valid
unpadded base64url string — see the counterexample. -/
theorem C7_base64url_codec :
    (∀ bs : List Nat, (∀ b ∈ bs, b < 256) →
      base64UrlParse (base64UrlStringify bs) = some bs) ∧
    (∀ raw : String, raw.length % 4 = 1 → decodePayload raw =
      Except.error ()) ∧
    (∀ raw : String, raw.length % 4 = 2 →
      decodePayload raw = Except.ok (decodePayloadBody (raw ++ "=="))) ∧
    (∀ raw : String, raw.length % 4 = 3 →
      decodePayload raw = Except.ok (decodePayloadBody (raw ++ "="))) := by
  refine ⟨base64UrlParse_stringify, ?_, ?_, ?_⟩
  · intro raw h
    unfold decodePayload
    rw [if_neg (by omega), if_neg (by omega), if_neg (by omega)]
  · intro raw h
    unfold decodePayload
    rw [if_neg (by omega), if_pos h]
  · intro raw h
    unfold decodePayload
    rw [if_neg (by omega), if_neg (by omega), if_pos h]

/-- C7 counterexample: `"QR"` is a valid unpadded base64url string
(forgiving decode drops the 4 leftover bits), decodes to the byte `[65]`,
but re-encodes to `"QQ" ≠ "QR"`. -/
theorem C7_roundtrip_fails_on_QR :
    base64UrlParse "QR" = some [65] ∧
    base64UrlStringify [65] = "QQ" ∧
    "QR".data.all isB64UrlChar = true :=
  ⟨rfl, rfl, rfl⟩

/-- C8 (amended): the base timestamp is `payload.iat` when present and
NONZERO and the current time otherwise — `iat = 0` falls back to `now`
through JS truthiness (see the counterexample); `timespan` adds a numeric
option value to the base and floors `base + ms/1000` for a string value
the external parser resolves to `ms` milliseconds; an unparseable string
value makes `sign` fail. -/
theorem C8_timestamp_and_timespan :
    (∀ n now : Int, n ≠ 0 →
      computeTimestamp (some (Json.num n)) now = n) ∧
    (∀ now : Int, computeTimestamp none now = now) ∧
    (∀ now : Int, computeTimestamp (some (Json.num 0)) now = now) ∧
    (∀ (k iat now : Int) (ms : String → Option Int), iat ≠ 0 →
      timespan (Sum.inl k) iat now ms = some (iat + k)) ∧
    (∀ (s : String) (iat now m : Int) (ms : String → Option Int), iat ≠ 0 →
      ms s = some m →
      timespan (Sum.inr s) iat now ms = some (iat + Int.fdiv m 1000)) ∧
    (∀ (s : String) (iat now : Int) (ms : String → Option Int),
      ms s = none → timespan (Sum.inr s) iat now ms = none) ∧
    (∀ (P : List (String × Json)) (secret : JsValue) (o : SignOptions)
      (now : Int) (ms : String → Option Int) (sigBytes : List Nat)
      (s : String) (tok : String), o.expiresIn = some (Sum.inr s) →
      ms s = none →
      (signModel (.inr P) secret o now ms sigBytes).1 ≠ Except.ok tok) := by
  refine ⟨?_, ?_, ?_, ?_, ?_, ?_, ?_⟩
  · intro n now h
    simp [computeTimestamp, h]
  · intro now
    rfl
  · intro now
    rfl
  · intro k iat now ms h
    simp [timespan, h]
  · intro s iat now m ms h hms
    simp [timespan, h, hms]
  · intro s iat now ms hms
    simp [timespan, hms]
  · intro P secret o now ms sigBytes s tok hoe hms hok
    obtain ⟨w7, hA, -⟩ := signModel_ok_inv hok
    have hts : timespan (Sum.inr s)
        (computeTimestamp (jsGet P "iat") now) now ms = none := by
      simp [timespan, hms]
    unfold assembleClaims at hA
    simp only [] at hA
    split at hA
    · simp at hA
    split at hA
    · simp at hA
    split at hA
    · simp at hA
    by_cases hnts : o.noTimestamp = some true
    · rw [if_pos hnts] at hA
      split at hA
      · simp at hA
      rename_i w2 hM2
      split at hA
      · simp at hA
      rename_i w3 hM3
      rw [hoe] at hM3
      have h3 : (timespan (Sum.inr s)
          (computeTimestamp (jsGet P "iat") now) now ms).map
            (fun t => setKey w2 "exp" (Json.num t)) = some w3 := hM3
      rw [hts] at h3
      simp at h3
    · rw [if_neg hnts] at hA
      split at hA
      · simp at hA
      rename_i w2 hM2
      split at hA
      · simp at hA
      rename_i w3 hM3
      rw [hoe] at hM3
      have h3 : (timespan (Sum.inr s)
          (computeTimestamp (jsGet P "iat") now) now ms).map
            (fun t => setKey w2 "exp" (Json.num t)) = some w3 := hM3
      rw [hts] at h3
      simp at h3

/-- C9 (amended): the token header is `{alg, typ: "JWT"` for an object
payload, `typ` undefined otherwise`}` shallow-merged with
`options.header`, whose fields win (last occurrence of a repeated key);
with no header option the serialized header is exactly `alg` (and `typ`
for objects).  The `alg`-is-always-supported invariant is FALSE — the
override can replace `alg` with anything (see the counterexample). -/
theorem C9_header_merge (alg : String) (isObj : Bool)
    (ho : List (String × Json)) (k : String) :
    (hGet (buildHeader alg isObj (some ho)) k =
      match jsGet ho k with
      | some v => some (some v)
      | none =>
        if k = "typ" then
          some (if isObj then some (Json.str "JWT") else none)
        else if k = "alg" then some (some (Json.str alg))
        else none) ∧
    headerJson (buildHeader alg true none) =
      Json.obj [("alg", Json.str alg), ("typ", Json.str "JWT")] ∧
    headerJson (buildHeader alg false none) =
      Json.obj [("alg", Json.str alg)] := by
  refine ⟨?_, rfl, rfl⟩
  unfold buildHeader
  rw [show (some ho).getD [] = ho from rfl,
    hGet_foldl_setKeyO _ _ _ (by simp)]
  cases hj : jsGet ho k with
  | some v => rfl
  | none =>
    by_cases hty : k = "typ"
    · subst hty
      simp [hGet]
    · by_cases hal : k = "alg"
      · subst hal
        simp [hGet]
      · simp [hGet, hty, hal]

/-- C9 counterexample: `options.header = {alg: "EVIL"}` overrides `alg`,
`sign` still succeeds, and the final header's `alg` is `"EVIL"`, which is
neither a supported algorithm nor `"none"`. -/
theorem C9_header_alg_override :
    (signModel (.inr []) (JsValue.str "secret")
        ⟨none, none, none, none, none, none, none, none, none, none,
          some [("alg", Json.str "EVIL")]⟩ 1000
        (fun _ => (none : Option Int)) []).1 =
      Except.ok (buildToken
        (buildHeader "HS256" true (some [("alg", Json.str "EVIL")]))
        (Json.obj [("iat", Json.num 1000)]) []) ∧
    hGet (buildHeader "HS256" true (some [("alg", Json.str "EVIL")]))
      "alg" = some (some (Json.str "EVIL")) ∧
    "EVIL" ∉ SUPPORTED_ALGS :=
  ⟨rfl, rfl, by decide⟩

/-- C10: `typeof null` is `"object"`, so a `null` secret passes `verify`'s
secret-type guard: with a `null` secret the two-segment token still
reaches the structural check, and a well-formed token proceeds all the way
through decoding, the temporal checks and signature verification to a
returned payload. -/
theorem C10_null_secret_passes_guard :
    typeofJs JsValue.jsNull = "object" ∧
    verifyModel (.str "a.b") JsValue.jsNull (.str "HS256") true
      (fun _ _ => false) 0 = Except.error VerifyErr.tokenStructure ∧
    verifyModel
      (.str "eyJ0eXAiOiJKV1QiLCJhbGciOiJIUzI1NiJ9.eyJwYXlsb2FkIjp7ImZvbyI6ImJhciJ9fQ.sig")
      JsValue.jsNull (.str "HS256") false (fun _ _ => true) 1000 =
      Except.ok (some (Json.obj [("foo", Json.str "bar")])) :=
  ⟨rfl, rfl, rfl⟩

/-- C8 counterexample: a payload with `iat = 0` takes the current time as
its base timestamp (`payload['iat'] || now` is falsy at 0), and a mutating
sign call stamps `iat = 777`, not the spec's "payload.iat whenever iat is
present (including iat == 0)". -/
theorem C8_iat_zero_falls_back :
    computeTimestamp (some (Json.num 0)) 777 = 777 ∧
    (signModel (.inr [("iat", Json.num 0)]) (JsValue.str "s")
        ⟨none, none, none, none, none, none, none, none, some true, none,
          none⟩ 777 (fun _ => (none : Option Int)) []).2 =
      Sum.inr [("iat", Json.num 777)] :=
  ⟨rfl, rfl⟩

end JwtModel
